import Mathlib

/-!
# SAD-Scheduling: scheduler diagnostics counters and the periodic job runner

A shallow embedding of

* `sched_mod/sched_diag.c` (with `sched_diag.h`): the four lock-protected
  counters and the hooks that update them;
* `hybrid_sched_test/src/main.c`: the bounded execution log, `busy_ms`, and
  the per-task job loop `task_entry`.

Machine integers are natural numbers (or integers for the C type `int`) with
the reduction modulo `2^32 = 4294967296` or `2^64 = 18446744073709551616`
written out wherever the C code can wrap.  Every hook of `sched_diag.c` runs
between `k_spin_lock` and `k_spin_unlock` on the one lock `g_lock`, and the
append to the log runs between `k_mutex_lock` and `k_mutex_unlock`; each is
therefore one atomic transition of the state it protects.
-/

namespace SadScheduling

/-! ## Data model of `sched_diag.h` -/

/-- The counters `struct sched_stats`: two `uint64_t` and two `uint32_t`. -/
structure sched_stats where
  context_switches : Nat
  preemptions : Nat
  readyq_len_max : Nat
  readyq_len_cur : Nat
deriving DecidableEq, Repr

/-- The field values a `struct sched_stats` can hold: each below the modulus of
its C type. -/
@[reducible] def sched_stats.wf (s : sched_stats) : Prop :=
  s.context_switches < 18446744073709551616 ∧ s.preemptions < 18446744073709551616 ∧
  s.readyq_len_max < 4294967296 ∧ s.readyq_len_cur < 4294967296

/-- Modelled from the spec: the field `base` of Zephyr's `struct k_thread`,
declared in the kernel headers and not in this repository; only `prio`, the
field `sched_diag_on_context_switch` reads, is kept (a signed priority value,
lower meaning higher priority). -/
structure thread_base where
  prio : Int
deriving DecidableEq, Repr

/-- Modelled from the spec: Zephyr's `struct k_thread`, declared in the kernel
headers and not in this repository, reduced to its `base` member. -/
structure k_thread where
  base : thread_base
deriving DecidableEq, Repr

/-! ## `sched_diag.c`, build with `CONFIG_SCHED_DIAG` defined

The static `g_stats` is passed explicitly; a possibly-`NULL` pointer is an
`Option`. -/

/-- The zero-initialised static `g_stats`. -/
def g_stats_init : sched_stats :=
  { context_switches := 0, preemptions := 0, readyq_len_max := 0, readyq_len_cur := 0 }

/-- The function `sched_diag_reset`: the four assignments of zero. -/
def sched_diag_reset (g : sched_stats) : sched_stats :=
  { g with context_switches := 0, preemptions := 0, readyq_len_max := 0, readyq_len_cur := 0 }

/-- The function `sched_diag_get`: nothing for a `NULL` `out`, else the struct
copy `*out = g_stats`.  The argument is the old content of `*out`, the result
its new content. -/
def sched_diag_get (g : sched_stats) (out : Option sched_stats) : Option sched_stats :=
  match out with
  | none => none
  | some _ => some g

/-- The function `sched_diag_on_enqueue`: `cur = ++g_stats.readyq_len_cur` on a
`uint32_t`, then the high-water update. -/
def sched_diag_on_enqueue (g : sched_stats) : sched_stats :=
  let cur := (g.readyq_len_cur + 1) % 4294967296
  let g1 := { g with readyq_len_cur := cur }
  if cur > g1.readyq_len_max then { g1 with readyq_len_max := cur } else g1

/-- The function `sched_diag_on_dequeue`: the guarded `uint32_t` decrement. -/
def sched_diag_on_dequeue (g : sched_stats) : sched_stats :=
  if g.readyq_len_cur > 0 then
    { g with readyq_len_cur := (g.readyq_len_cur + 4294967296 - 1) % 4294967296 }
  else g

/-- The function `sched_diag_on_context_switch`: the unconditional `uint64_t`
increment of `context_switches`, then the preemption heuristic under
`if (from && to)`. -/
def sched_diag_on_context_switch (g : sched_stats) (from_ to_ : Option k_thread) :
    sched_stats :=
  let g1 := { g with context_switches := (g.context_switches + 1) % 18446744073709551616 }
  match from_, to_ with
  | some f, some t =>
    if t.base.prio < f.base.prio then
      { g1 with preemptions := (g1.preemptions + 1) % 18446744073709551616 }
    else g1
  | _, _ => g1

/-- One call of a state-changing entry point of `sched_diag.c`. -/
inductive diag_call where
  | reset
  | on_enqueue
  | on_dequeue
  | on_context_switch (from_ to_ : Option k_thread)
deriving DecidableEq, Repr

/-- The effect of one call on `g_stats`. -/
def diag_call.apply (g : sched_stats) : diag_call → sched_stats
  | .reset => sched_diag_reset g
  | .on_enqueue => sched_diag_on_enqueue g
  | .on_dequeue => sched_diag_on_dequeue g
  | .on_context_switch f t => sched_diag_on_context_switch g f t

/-- The effect of a finite sequence of calls, first call first. -/
def diag_run (g : sched_stats) (calls : List diag_call) : sched_stats :=
  calls.foldl diag_call.apply g

/-! ## Sample counter states -/

/-- A counter state whose 64-bit `context_switches` is at its largest value. -/
def stats_switches_full : sched_stats :=
  { context_switches := 18446744073709551615, preemptions := 0,
    readyq_len_max := 0, readyq_len_cur := 0 }

/-- A counter state whose 32-bit `readyq_len_cur` is at its largest value. -/
def stats_readyq_full : sched_stats :=
  { context_switches := 0, preemptions := 0,
    readyq_len_max := 4294967295, readyq_len_cur := 4294967295 }

/-- A counter state with three threads in the ready queue. -/
def stats_three_ready : sched_stats :=
  { context_switches := 5, preemptions := 2, readyq_len_max := 7, readyq_len_cur := 3 }

/-- A counter state with an empty ready queue. -/
def stats_none_ready : sched_stats :=
  { context_switches := 5, preemptions := 2, readyq_len_max := 7, readyq_len_cur := 0 }

/-- A thread of the real-time class: `main` creates it with priority 0. -/
def thread_rt : k_thread := { base := { prio := 0 } }

/-- A thread of the best-effort class: `main` creates it with priority 4. -/
def thread_be : k_thread := { base := { prio := 4 } }

/-! ## Data model of `main.c` -/

/-- The task descriptor `task_cfg_t`: `int id`, three `uint32_t`, `int critical`. -/
structure task_cfg_t where
  id : Int
  period_ms : Nat
  wcet_ms : Nat
  deadline_ms : Nat
  critical : Int
deriving DecidableEq, Repr

/-- The field values a `task_cfg_t` can hold: the `uint32_t` fields are below
`2^32` and the `int` fields are 32-bit signed values. -/
@[reducible] def task_cfg_t.wf (c : task_cfg_t) : Prop :=
  c.period_ms < 4294967296 ∧ c.wcet_ms < 4294967296 ∧ c.deadline_ms < 4294967296 ∧
  -2147483648 ≤ c.id ∧ c.id < 2147483648 ∧ -2147483648 ≤ c.critical ∧ c.critical < 2147483648

/-- The log record `job_log_t`. -/
structure job_log_t where
  task_id : Int
  job_id : Int
  release_ms : Nat
  start_ms : Nat
  finish_ms : Nat
  deadline_abs_ms : Nat
  met_deadline : Int
deriving DecidableEq, Repr

/-- The capacity `LOG_MAX` of the log, an `int` constant. -/
def LOG_MAX : Int := 512

/-- The statics `g_logs[LOG_MAX]` and `g_log_count`. -/
structure log_state where
  g_logs : List job_log_t
  g_log_count : Int
deriving DecidableEq, Repr

/-- The states the statics can be in: `g_logs` has its `LOG_MAX` slots and
`g_log_count` indexes at most one past the last. -/
@[reducible] def log_state.wf (s : log_state) : Prop :=
  s.g_logs.length = 512 ∧ 0 ≤ s.g_log_count ∧ s.g_log_count ≤ 512

/-- The records the log holds: the slots `g_logs[0 .. g_log_count - 1]`, the
ones the report loop of `main` prints, in that order. -/
def log_state.records (s : log_state) : List job_log_t :=
  s.g_logs.take s.g_log_count.toNat

/-- The zero-initialised statics `g_logs` and `g_log_count = 0`. -/
def log_init : log_state :=
  { g_logs := List.replicate 512
      { task_id := 0, job_id := 0, release_ms := 0, start_ms := 0, finish_ms := 0,
        deadline_abs_ms := 0, met_deadline := 0 },
    g_log_count := 0 }

/-- The append of `task_entry`, the statement between `k_mutex_lock` and
`k_mutex_unlock`: `if (g_log_count < LOG_MAX) g_logs[g_log_count++] = r;`. -/
def log_append (s : log_state) (r : job_log_t) : log_state :=
  if s.g_log_count < LOG_MAX then
    { g_logs := s.g_logs.set s.g_log_count.toNat r, g_log_count := s.g_log_count + 1 }
  else s

/-! ## The kernel services `main.c` calls

`k_uptime_get_32`, `sys_rand32_get` and `k_sleep` belong to the Zephyr kernel.
They are parameters of the model: a thread sees the values its successive calls
return, and its calls of `k_sleep` are recorded so that an assumption on the
sleep primitive can be stated. -/

/-- What one thread observes of the kernel: `uptime i` is the value its call
number `i` of `k_uptime_get_32` returns and `rand32 i` the value its call number
`i` of `sys_rand32_get` returns (both counted from 0). -/
structure kernel_env where
  uptime : Nat → Nat
  rand32 : Nat → Nat

/-- The progress of one thread through its kernel calls: the number of clock
readings and of random draws taken so far, and the `k_sleep` calls made so far,
newest first, each as (clock readings taken before the call, milliseconds). -/
structure thread_io where
  reads : Nat
  rands : Nat
  sleeps : List (Nat × Nat)
deriving DecidableEq, Repr

/-- The function `now_ms`: the next `uint32_t` value of `k_uptime_get_32`. -/
def now_ms (e : kernel_env) (c : thread_io) : Nat × thread_io :=
  (e.uptime c.reads % 4294967296, { c with reads := c.reads + 1 })

/-- The next `uint32_t` value of `sys_rand32_get`. -/
def sys_rand32_get (e : kernel_env) (c : thread_io) : Nat × thread_io :=
  (e.rand32 c.rands % 4294967296, { c with rands := c.rands + 1 })

/-- A call `k_sleep(K_MSEC(ms))`: recorded, with the number of clock readings
that precede it. -/
def k_sleep (ms : Nat) (c : thread_io) : thread_io :=
  { c with sleeps := (c.reads, ms) :: c.sleeps }

/-- The cast `(int32_t)x` of a `uint32_t`. -/
def to_int32 (x : Nat) : Int :=
  if x % 4294967296 < 2147483648 then (x % 4294967296 : Nat) else (x % 4294967296 : Nat) - 4294967296

/-- The `int32_t` subtraction `a - b`, in two's complement: the difference is
brought back into `[-2^31, 2^31)`. -/
def sub_int32 (a b : Int) : Int :=
  (a - b + 2147483648) % 4294967296 - 2147483648

/-! ## `busy_ms` and `task_entry` -/

/-- The loop `while ((now_ms() - t0) < ms) {}` of `busy_ms`, the subtraction
being on `uint32_t`.  Each test takes one clock reading; `none` when `fuel`
tests have all found the condition true. -/
def busy_loop (e : kernel_env) (t0 ms : Nat) : Nat → thread_io → Option thread_io
  | 0, _ => none
  | fuel + 1, c =>
    let (n, c1) := now_ms e c
    if (n + 4294967296 - t0) % 4294967296 < ms then busy_loop e t0 ms fuel c1 else some c1

/-- The function `busy_ms`: `t0 = now_ms()`, then the loop. -/
def busy_ms (e : kernel_env) (fuel ms : Nat) (c : thread_io) : Option thread_io :=
  let (t0, c1) := now_ms e c
  busy_loop e t0 ms fuel c1

/-- The locals of `task_entry`: `cfg`, `job`, `next_release`, and the thread's
progress through its kernel calls. -/
structure task_locals where
  cfg : task_cfg_t
  job : Int
  next_release : Nat
  io : thread_io
deriving DecidableEq, Repr

/-- The body of the loop of `task_entry` up to the record it builds: jitter
draw, `next_release += cfg.period_ms`, the jitter sleep, the sleep until the
release, `busy_ms(cfg.wcet_ms)`, and the deadline test.  `none` when `busy_ms`
has not returned within `fuel` tests. -/
def task_job (e : kernel_env) (fuel : Nat) (st : task_locals) :
    Option (job_log_t × task_locals) :=
  let (r, c1) := sys_rand32_get e st.io
  let jitter := r % 10
  let next_release := (st.next_release + st.cfg.period_ms) % 4294967296
  let c2 := k_sleep jitter c1
  let (n, c3) := now_ms e c2
  let delay := sub_int32 (to_int32 next_release) (to_int32 n)
  let c4 := if delay > 0 then k_sleep delay.toNat c3 else c3
  let release_ts := next_release
  let (start_ts, c5) := now_ms e c4
  match busy_ms e fuel st.cfg.wcet_ms c5 with
  | none => none
  | some c6 =>
    let (finish_ts, c7) := now_ms e c6
    let deadline_abs := (release_ts + st.cfg.deadline_ms) % 4294967296
    let met : Int := if finish_ts ≤ deadline_abs then 1 else 0
    some ({ task_id := st.cfg.id, job_id := st.job, release_ms := release_ts,
            start_ms := start_ts, finish_ms := finish_ts,
            deadline_abs_ms := deadline_abs, met_deadline := met },
          { st with next_release := next_release, io := c7 })

/-- One full pass through the body of the loop of `task_entry`: the job, the
append under `log_mutex`, and `job++`. -/
def task_iter (e : kernel_env) (fuel : Nat) (st : task_locals) (log : log_state) :
    Option (task_locals × log_state) :=
  match task_job e fuel st with
  | none => none
  | some (r, st1) => some ({ st1 with job := st1.job + 1 }, log_append log r)

/-- How far a run of `task_entry` got: `finished` when the loop was left with
`job = 10`; otherwise the thread is still inside a pass, and `locals` and `log`
are those at the start of that pass. -/
structure task_outcome where
  finished : Bool
  locals : task_locals
  log : log_state
deriving DecidableEq, Repr

/-- The loop `while (job < 10) { ... }` of `task_entry`, run for at most `n`
tests of its condition. -/
def task_loop (e : kernel_env) (fuel : Nat) : Nat → task_locals → log_state → task_outcome
  | 0, st, log => { finished := false, locals := st, log := log }
  | n + 1, st, log =>
    if st.job < 10 then
      match task_iter e fuel st log with
      | none => { finished := false, locals := st, log := log }
      | some (st1, log1) => task_loop e fuel n st1 log1
    else { finished := true, locals := st, log := log }

/-- The function `task_entry` for the descriptor `cfg`, started on the log
`log`: `job = 0`, `next_release = now_ms()`, then the loop.  `fuel` bounds both
the tests of the loop and the tests of each busy-wait. -/
def task_entry (e : kernel_env) (fuel : Nat) (cfg : task_cfg_t) (log : log_state) :
    task_outcome :=
  let (t, c) := now_ms e { reads := 0, rands := 0, sleeps := [] }
  task_loop e fuel fuel { cfg := cfg, job := 0, next_release := t, io := c } log

/-! ## Sample records and logs -/

/-- A record as the first descriptor of `TASKS` produces it when run alone. -/
def record_sample : job_log_t :=
  { task_id := 0, job_id := 0, release_ms := 50, start_ms := 50, finish_ms := 58,
    deadline_abs_ms := 100, met_deadline := 1 }

/-- A log whose `LOG_MAX` slots are all in use. -/
def log_full : log_state :=
  { g_logs := List.replicate 512 record_sample, g_log_count := 512 }

/-! ## Assumptions on the kernel services -/

/-- The clock `now_ms` is non-decreasing: each value it returns is at least the
one it returned before. -/
def clock_nondecreasing (e : kernel_env) : Prop :=
  ∀ i, e.uptime i % 4294967296 ≤ e.uptime (i + 1) % 4294967296

/-- A `k_sleep` of `d` ms returns only after the clock has advanced by at least
`d`: for every recorded sleep `(k, d)`, made between the clock readings number
`k - 1` and `k`, the later reading is at least the earlier one plus `d`. -/
def sleeps_respected (e : kernel_env) (c : thread_io) : Prop :=
  ∀ p ∈ c.sleeps, e.uptime (p.1 - 1) % 4294967296 + p.2 ≤ e.uptime p.1 % 4294967296

/-- Every busy-wait of `ms` milliseconds ends: after any clock reading there is
a later one that is at least `ms` ahead of it in `uint32_t` arithmetic. -/
def busy_wait_ends (e : kernel_env) (ms : Nat) : Prop :=
  ∀ i, ∃ j, i < j ∧
    ms ≤ (e.uptime j % 4294967296 + 4294967296 - e.uptime i % 4294967296) % 4294967296

/-! ## Sample descriptors and kernel behaviours -/

/-- The first descriptor of the table `TASKS`. -/
def cfg_rt0 : task_cfg_t :=
  { id := 0, period_ms := 50, wcet_ms := 8, deadline_ms := 50, critical := 1 }

/-- The first descriptor of `TASKS` with the largest relative deadline a
`uint32_t` holds. -/
def cfg_deadline_max : task_cfg_t :=
  { id := 0, period_ms := 50, wcet_ms := 8, deadline_ms := 4294967295, critical := 1 }

/-- The first descriptor of `TASKS` with a period of `2^32 - 2^27` ms. -/
def cfg_period_huge : task_cfg_t :=
  { id := 0, period_ms := 4160749568, wcet_ms := 8, deadline_ms := 50, critical := 1 }

/-- A kernel whose clock advances by 1 ms from each reading to the next and
whose random source returns 0. -/
def env_tick : kernel_env :=
  { uptime := fun i => i, rand32 := fun _ => 0 }

/-- A kernel whose clock stands still at 0. -/
def env_frozen : kernel_env :=
  { uptime := fun _ => 0, rand32 := fun _ => 0 }

/-- A kernel whose clock advances by 1 ms from each reading to the next until
it reaches `2^32 - 1`, where it stays (it never wraps), and whose random source
returns 0. -/
def env_slow : kernel_env :=
  { uptime := fun i => if i < 4294967295 then i else 4294967295, rand32 := fun _ => 0 }

/-- A kernel whose clock reads 0, then 10, then 50 ms more at each reading
(100, 150, ...) up to a ceiling of 4000000000 where it stays; its random source
returns 7. -/
def env_wake : kernel_env :=
  { uptime := fun i =>
      if i = 0 then 0 else if i = 1 then 10
      else if i < 80000000 then 50 * i else 4000000000,
    rand32 := fun _ => 7 }

/-! ## `sched_diag.c`, build with `CONFIG_SCHED_DIAG` undefined

This build declares no `g_stats` and no lock.  The four hooks have empty bodies:
each is the identity on the whole program state, whatever that state is, and
`sched_diag_get` reads no state. -/

namespace no_diag

/-- The function `sched_diag_reset` of the disabled build: `{}`. -/
def sched_diag_reset {σ : Type} (w : σ) : σ := w

/-- The function `sched_diag_on_enqueue` of the disabled build: `{}`. -/
def sched_diag_on_enqueue {σ : Type} (w : σ) : σ := w

/-- The function `sched_diag_on_dequeue` of the disabled build: `{}`. -/
def sched_diag_on_dequeue {σ : Type} (w : σ) : σ := w

/-- The function `sched_diag_on_context_switch` of the disabled build: both
arguments are unused. -/
def sched_diag_on_context_switch {σ : Type} (w : σ) (_from to_ : Option k_thread) : σ :=
  match _from, to_ with
  | _, _ => w

/-- The function `sched_diag_get` of the disabled build: nothing for a `NULL`
`out`, else the four fields of `*out` are set to 0. -/
def sched_diag_get (out : Option sched_stats) : Option sched_stats :=
  match out with
  | none => none
  | some o =>
    some { o with context_switches := 0, preemptions := 0,
                  readyq_len_max := 0, readyq_len_cur := 0 }

/-- The effect of one call on the program state in the disabled build. -/
def apply {σ : Type} (w : σ) : diag_call → σ
  | .reset => sched_diag_reset w
  | .on_enqueue => sched_diag_on_enqueue w
  | .on_dequeue => sched_diag_on_dequeue w
  | .on_context_switch f t => sched_diag_on_context_switch w f t

/-- The effect of a finite sequence of calls in the disabled build. -/
def run {σ : Type} (w : σ) (calls : List diag_call) : σ :=
  calls.foldl apply w

end no_diag

/-! ## The history of a run of the counters -/

/-- The counter states after each call of a sequence, in order. -/
def diag_after (g : sched_stats) : List diag_call → List sched_stats
  | [] => []
  | c :: cs => diag_call.apply g c :: diag_after (diag_call.apply g c) cs

/-- The counter states a run goes through: the starting state, then the state
after each call. -/
def diag_trace (g : sched_stats) (calls : List diag_call) : List sched_stats :=
  g :: diag_after g calls

/-- The largest `readyq_len_cur` among the given states, 0 included. -/
def readyq_high_water (states : List sched_stats) : Nat :=
  (states.map sched_stats.readyq_len_cur).foldr max 0

/-! ## `main`: the workload table and the creation of the runners -/

/-- The capacity `MAX_TASKS` of the arrays of stacks and thread objects. -/
def MAX_TASKS : Nat := 20

/-- The table `TASKS`. -/
def TASKS : List task_cfg_t :=
  [ { id := 0, period_ms := 50, wcet_ms := 8, deadline_ms := 50, critical := 1 },
    { id := 1, period_ms := 60, wcet_ms := 12, deadline_ms := 60, critical := 1 },
    { id := 2, period_ms := 400, wcet_ms := 250, deadline_ms := 400, critical := 0 },
    { id := 3, period_ms := 420, wcet_ms := 260, deadline_ms := 420, critical := 0 },
    { id := 4, period_ms := 400, wcet_ms := 250, deadline_ms := 400, critical := 0 },
    { id := 5, period_ms := 420, wcet_ms := 260, deadline_ms := 420, critical := 0 },
    { id := 6, period_ms := 400, wcet_ms := 250, deadline_ms := 400, critical := 0 },
    { id := 7, period_ms := 420, wcet_ms := 260, deadline_ms := 420, critical := 0 },
    { id := 6, period_ms := 400, wcet_ms := 250, deadline_ms := 400, critical := 0 },
    { id := 7, period_ms := 420, wcet_ms := 260, deadline_ms := 420, critical := 0 },
    { id := 8, period_ms := 50, wcet_ms := 8, deadline_ms := 50, critical := 1 },
    { id := 9, period_ms := 60, wcet_ms := 12, deadline_ms := 60, critical := 1 },
    { id := 10, period_ms := 50, wcet_ms := 8, deadline_ms := 50, critical := 1 },
    { id := 11, period_ms := 60, wcet_ms := 12, deadline_ms := 6000, critical := 1 } ]

/-- One call of `k_thread_create` by `main`: the descriptor passed to
`task_entry` as `p1` and the priority. -/
structure created_thread where
  cfg : task_cfg_t
  prio : Int
deriving DecidableEq, Repr

/-- The creation loop of `main` over a table `tasks`: for each index in turn,
`prio = tasks[i].critical ? 0 : 4` and one `k_thread_create` running
`task_entry` on `&tasks[i]`.  The result lists the threads created, in order. -/
def main_create_threads : List task_cfg_t → List created_thread
  | [] => []
  | c :: cs => { cfg := c, prio := if c.critical ≠ 0 then 0 else 4 } :: main_create_threads cs

/-- The locals of `task_entry` when it reaches its loop: `cfg`, `job = 0`,
`next_release = now_ms()`. -/
def task_init (e : kernel_env) (cfg : task_cfg_t) : task_locals :=
  let (t, c) := now_ms e { reads := 0, rands := 0, sleeps := [] }
  { cfg := cfg, job := 0, next_release := t, io := c }

/-! ## Several runners on one log

Each runner is a thread running `task_entry`, with what it observes of the
kernel.  The only state the runners share is the log, and a runner touches it
only in the append, under `log_mutex`; the order in which the runners make their
passes through the loop body is therefore the order of their appends. -/

/-- A thread running `task_entry`: what it observes of the kernel, and its
locals. -/
structure runner where
  env : kernel_env
  locals : task_locals

/-- The runners `main` creates for a table, each about to enter its loop;
`envs i` is what the thread of index `i` observes, `i` counting from `first`. -/
def runners_from (envs : Nat → kernel_env) : Nat → List task_cfg_t → List runner
  | _, [] => []
  | first, c :: cs =>
    { env := envs first, locals := task_init (envs first) c } :: runners_from envs (first + 1) cs

/-- The runner of index `i` makes its next pass through the loop body, append
included.  Nothing happens when there is no such runner, when it has left its
loop (`job < 10` fails), or when its busy-wait does not end within `fuel`
tests. -/
def system_step (fuel : Nat) (rs : List runner) (log : log_state) (i : Nat) :
    List runner × log_state :=
  match rs[i]? with
  | none => (rs, log)
  | some r =>
    if r.locals.job < 10 then
      match task_iter r.env fuel r.locals log with
      | none => (rs, log)
      | some (st1, log1) => (rs.set i { r with locals := st1 }, log1)
    else (rs, log)

/-- The runners make their passes in the order `sched` gives. -/
def system_run (fuel : Nat) (rs : List runner) (log : log_state) (sched : List Nat) :
    List runner × log_state :=
  sched.foldl (fun p i => system_step fuel p.1 p.2 i) (rs, log)

/-- The number of passes the runners have completed between them: the sum of
their `job` counters. -/
def jobs_total (rs : List runner) : Int :=
  (rs.map (fun r => r.locals.job)).sum

/-- The schedule in which `n` runners take turns, `rounds` times over. -/
def round_robin (n rounds : Nat) : List Nat :=
  (List.replicate rounds (List.range n)).flatten

/-- A kernel whose clock advances by 1000 ms from each reading to the next and
whose random source returns 0. -/
def env_coarse : kernel_env :=
  { uptime := fun i => 1000 * i, rand32 := fun _ => 0 }

/-- A descriptor with `period_ms = 0`. -/
def cfg_period_zero : task_cfg_t :=
  { id := 0, period_ms := 0, wcet_ms := 8, deadline_ms := 50, critical := 1 }

/-! ## Theorems: the diagnostics counters -/

/-- Every call keeps `readyq_len_cur ≤ readyq_len_max`. -/
theorem diag_call_apply_keeps_cur_le_max (g : sched_stats) (c : diag_call)
    (h : g.readyq_len_cur ≤ g.readyq_len_max) :
    (diag_call.apply g c).readyq_len_cur ≤ (diag_call.apply g c).readyq_len_max := by
  cases c with
  | reset => exact Nat.le_refl 0
  | on_enqueue =>
    show (sched_diag_on_enqueue g).readyq_len_cur ≤ (sched_diag_on_enqueue g).readyq_len_max
    unfold sched_diag_on_enqueue
    dsimp only
    split <;> (try dsimp only) <;> omega
  | on_dequeue =>
    show (sched_diag_on_dequeue g).readyq_len_cur ≤ (sched_diag_on_dequeue g).readyq_len_max
    unfold sched_diag_on_dequeue
    split <;> (try dsimp only) <;> omega
  | on_context_switch f t =>
    show (sched_diag_on_context_switch g f t).readyq_len_cur
      ≤ (sched_diag_on_context_switch g f t).readyq_len_max
    unfold sched_diag_on_context_switch
    dsimp only
    split
    · split <;> exact h
    · exact h

/-- A sequence of calls keeps `readyq_len_cur ≤ readyq_len_max`. -/
theorem diag_run_keeps_cur_le_max (calls : List diag_call) :
    ∀ g : sched_stats, g.readyq_len_cur ≤ g.readyq_len_max →
      (diag_run g calls).readyq_len_cur ≤ (diag_run g calls).readyq_len_max := by
  induction calls with
  | nil => intro g h; exact h
  | cons c cs ih =>
    intro g h
    exact ih (diag_call.apply g c) (diag_call_apply_keeps_cur_le_max g c h)

/-- C1: in every counter state reached from `sched_diag_reset` (called in any
state `g`), or from the zero-initialised static state, by a finite sequence of
`sched_diag_reset`, `sched_diag_on_enqueue`, `sched_diag_on_dequeue` and
`sched_diag_on_context_switch` calls, `readyq_len_max ≥ readyq_len_cur ≥ 0`. -/
theorem readyq_len_max_ge_cur_of_reachable (g : sched_stats) (calls : List diag_call) :
    (0 ≤ (diag_run (sched_diag_reset g) calls).readyq_len_cur ∧
      (diag_run (sched_diag_reset g) calls).readyq_len_cur
        ≤ (diag_run (sched_diag_reset g) calls).readyq_len_max) ∧
    (0 ≤ (diag_run g_stats_init calls).readyq_len_cur ∧
      (diag_run g_stats_init calls).readyq_len_cur
        ≤ (diag_run g_stats_init calls).readyq_len_max) :=
  ⟨⟨Nat.zero_le _, diag_run_keeps_cur_le_max calls _ (Nat.le_refl 0)⟩,
   ⟨Nat.zero_le _, diag_run_keeps_cur_le_max calls _ (Nat.le_refl 0)⟩⟩

/-- C3, as the code has it: with both threads present,
`sched_diag_on_context_switch` adds 1 to `context_switches` modulo `2^64` (so
exactly 1 unless the counter was `2^64 - 1`), adds 1 to `preemptions` modulo
`2^64` when `to->base.prio < from->base.prio` (exactly 1 unless that counter was
`2^64 - 1`), leaves `preemptions` unchanged otherwise (equal priorities
included), and leaves the two ready-queue fields unchanged. -/
theorem on_context_switch_present_counts (g : sched_stats) (f t : k_thread) :
    (sched_diag_on_context_switch g (some f) (some t)).context_switches
        = (g.context_switches + 1) % 18446744073709551616 ∧
    (g.context_switches + 1 < 18446744073709551616 →
      (sched_diag_on_context_switch g (some f) (some t)).context_switches
        = g.context_switches + 1) ∧
    (t.base.prio < f.base.prio →
      (sched_diag_on_context_switch g (some f) (some t)).preemptions
        = (g.preemptions + 1) % 18446744073709551616) ∧
    (t.base.prio < f.base.prio → g.preemptions + 1 < 18446744073709551616 →
      (sched_diag_on_context_switch g (some f) (some t)).preemptions = g.preemptions + 1) ∧
    (¬ t.base.prio < f.base.prio →
      (sched_diag_on_context_switch g (some f) (some t)).preemptions = g.preemptions) ∧
    (t.base.prio = f.base.prio →
      (sched_diag_on_context_switch g (some f) (some t)).preemptions = g.preemptions) ∧
    (sched_diag_on_context_switch g (some f) (some t)).readyq_len_max = g.readyq_len_max ∧
    (sched_diag_on_context_switch g (some f) (some t)).readyq_len_cur = g.readyq_len_cur := by
  unfold sched_diag_on_context_switch
  dsimp only
  by_cases hp : t.base.prio < f.base.prio
  · rw [if_pos hp]
    refine ⟨rfl, fun h => Nat.mod_eq_of_lt h, fun _ => rfl, fun _ h => Nat.mod_eq_of_lt h,
      fun h => absurd hp h, fun h => ?_, rfl, rfl⟩
    omega
  · rw [if_neg hp]
    exact ⟨rfl, fun h => Nat.mod_eq_of_lt h, fun h => absurd h hp,
      fun h => absurd h hp, fun _ => rfl, fun _ => rfl, rfl, rfl⟩

/-- C3 as stated fails where the 64-bit counter is full: from the well-formed
state with `context_switches = 2^64 - 1` a switch from a best-effort thread to a
real-time thread leaves `context_switches = 0`, which is not one more than
before. -/
theorem on_context_switch_wraps_at_max :
    stats_switches_full.wf ∧
    (sched_diag_on_context_switch stats_switches_full
        (some thread_be) (some thread_rt)).context_switches = 0 ∧
    ¬ ((sched_diag_on_context_switch stats_switches_full
        (some thread_be) (some thread_rt)).context_switches
        = stats_switches_full.context_switches + 1) := by
  refine ⟨by decide, by decide, by decide⟩

/-- C4, as the code has it: with `from` absent (`NULL`),
`sched_diag_on_context_switch` still counts the switch: `context_switches` grows
by 1 modulo `2^64`, and `preemptions`, `readyq_len_max` and `readyq_len_cur` are
unchanged. -/
theorem on_context_switch_from_absent (g : sched_stats) (t : Option k_thread) :
    (sched_diag_on_context_switch g none t).context_switches
        = (g.context_switches + 1) % 18446744073709551616 ∧
    (sched_diag_on_context_switch g none t).preemptions = g.preemptions ∧
    (sched_diag_on_context_switch g none t).readyq_len_max = g.readyq_len_max ∧
    (sched_diag_on_context_switch g none t).readyq_len_cur = g.readyq_len_cur := by
  cases t <;> exact ⟨rfl, rfl, rfl, rfl⟩

/-- C4 as stated fails: called with `from` absent on the freshly reset
counters, the hook does not leave them as they were, `context_switches` is 1
afterwards. -/
theorem on_context_switch_from_absent_not_skipped :
    (sched_diag_on_context_switch (sched_diag_reset g_stats_init) none
        (some thread_rt)).context_switches = 1 ∧
    ¬ (sched_diag_on_context_switch (sched_diag_reset g_stats_init) none
        (some thread_rt) = sched_diag_reset g_stats_init) := by
  refine ⟨by decide, by decide⟩

/-- C8, as the code has it: `sched_diag_on_enqueue` adds 1 to `readyq_len_cur`
modulo `2^32` (so exactly 1 unless it was `2^32 - 1`), sets `readyq_len_max` to
the maximum of its old value and the new `readyq_len_cur`, and leaves
`context_switches` and `preemptions` unchanged. -/
theorem on_enqueue_effect (g : sched_stats) :
    (sched_diag_on_enqueue g).readyq_len_cur = (g.readyq_len_cur + 1) % 4294967296 ∧
    (g.readyq_len_cur + 1 < 4294967296 →
      (sched_diag_on_enqueue g).readyq_len_cur = g.readyq_len_cur + 1) ∧
    (sched_diag_on_enqueue g).readyq_len_max
        = max g.readyq_len_max (sched_diag_on_enqueue g).readyq_len_cur ∧
    (sched_diag_on_enqueue g).context_switches = g.context_switches ∧
    (sched_diag_on_enqueue g).preemptions = g.preemptions := by
  unfold sched_diag_on_enqueue
  dsimp only
  split
  · refine ⟨rfl, fun h => Nat.mod_eq_of_lt h, ?_, rfl, rfl⟩
    dsimp only
    omega
  · refine ⟨rfl, fun h => Nat.mod_eq_of_lt h, ?_, rfl, rfl⟩
    dsimp only
    omega

/-- C8 as stated fails where the 32-bit length is full: from the well-formed
state with `readyq_len_cur = 2^32 - 1` the call leaves `readyq_len_cur = 0`,
which is not one greater than before. -/
theorem on_enqueue_wraps_at_max :
    stats_readyq_full.wf ∧
    (sched_diag_on_enqueue stats_readyq_full).readyq_len_cur = 0 ∧
    ¬ ((sched_diag_on_enqueue stats_readyq_full).readyq_len_cur
        = stats_readyq_full.readyq_len_cur + 1) := by
  refine ⟨by decide, by decide, by decide⟩

/-- C9: on every counter state, `sched_diag_on_dequeue` lowers `readyq_len_cur`
by exactly 1 when it is greater than 0 and leaves it at 0 when it is 0, and
leaves `readyq_len_max`, `context_switches` and `preemptions` unchanged. -/
theorem on_dequeue_effect (g : sched_stats) (hwf : g.wf) :
    (0 < g.readyq_len_cur → (sched_diag_on_dequeue g).readyq_len_cur + 1 = g.readyq_len_cur) ∧
    (g.readyq_len_cur = 0 → (sched_diag_on_dequeue g).readyq_len_cur = 0) ∧
    (sched_diag_on_dequeue g).readyq_len_max = g.readyq_len_max ∧
    (sched_diag_on_dequeue g).context_switches = g.context_switches ∧
    (sched_diag_on_dequeue g).preemptions = g.preemptions := by
  obtain ⟨_, _, _, hcur⟩ := hwf
  unfold sched_diag_on_dequeue
  split
  · refine ⟨?_, ?_, rfl, rfl, rfl⟩ <;> dsimp only <;> omega
  · refine ⟨?_, ?_, rfl, rfl, rfl⟩ <;> omega

/-- C9 at a state with `readyq_len_cur = 3` and at one with
`readyq_len_cur = 0`. -/
theorem on_dequeue_effect_witness :
    (stats_three_ready.wf ∧
      (sched_diag_on_dequeue stats_three_ready).readyq_len_cur + 1 = 3) ∧
    (stats_none_ready.wf ∧ (sched_diag_on_dequeue stats_none_ready).readyq_len_cur = 0) :=
  ⟨⟨by decide, (on_dequeue_effect stats_three_ready (by decide)).1 (by decide)⟩,
   ⟨by decide, (on_dequeue_effect stats_none_ready (by decide)).2.1 rfl⟩⟩

/-- C10: whatever the counters were, a snapshot `sched_diag_get` taken right
after `sched_diag_reset` holds four zeros. -/
theorem get_after_reset_is_zero (g old : sched_stats) :
    sched_diag_get (sched_diag_reset g) (some old)
      = some { context_switches := 0, preemptions := 0,
               readyq_len_max := 0, readyq_len_cur := 0 } := rfl

/-! ## Theorems: the execution log -/

/-- Writing slot `n` does not change the slots before it. -/
theorem take_set_self {α : Type} (l : List α) (n : Nat) (r : α) :
    (l.set n r).take n = l.take n := by
  induction l generalizing n with
  | nil => simp
  | cons a l ih =>
    cases n with
    | zero => simp
    | succ n => simp [ih]

/-- Writing slot `n` of an array that has it makes the first `n + 1` slots the
first `n` followed by the new value. -/
theorem take_succ_set {α : Type} (l : List α) (n : Nat) (r : α) (h : n < l.length) :
    (l.set n r).take (n + 1) = l.take n ++ [r] := by
  rw [List.take_succ, take_set_self]
  simp [List.getElem?_set, h]

/-- The append keeps the log well formed. -/
theorem log_append_wf (s : log_state) (r : job_log_t) (hwf : s.wf) : (log_append s r).wf := by
  obtain ⟨hlen, h0, h512⟩ := hwf
  unfold log_append LOG_MAX
  split
  · refine ⟨?_, ?_, ?_⟩
    · simp [hlen]
    · show 0 ≤ s.g_log_count + 1
      omega
    · show s.g_log_count + 1 ≤ 512
      omega
  · exact ⟨hlen, h0, h512⟩

/-- The append to a log with a free slot adds the record at the end. -/
theorem log_append_records (s : log_state) (r : job_log_t) (hwf : s.wf)
    (hroom : s.g_log_count < 512) : (log_append s r).records = s.records ++ [r] := by
  obtain ⟨hlen, h0, _⟩ := hwf
  unfold log_append LOG_MAX log_state.records
  rw [if_pos hroom]
  have h1 : (s.g_log_count + 1).toNat = s.g_log_count.toNat + 1 := by omega
  have h2 : s.g_log_count.toNat < s.g_logs.length := by omega
  show List.take (s.g_log_count + 1).toNat (s.g_logs.set s.g_log_count.toNat r) = _
  rw [h1, take_succ_set _ _ _ h2]

/-- The number of records a well-formed log holds is `g_log_count`. -/
theorem log_records_length (s : log_state) (hwf : s.wf) :
    (s.records.length : Int) = s.g_log_count := by
  obtain ⟨hlen, h0, h512⟩ := hwf
  unfold log_state.records
  rw [List.length_take]
  omega

/-- Any number of appends keeps the log well formed. -/
theorem log_appends_wf (rs : List job_log_t) :
    ∀ s : log_state, s.wf → (rs.foldl log_append s).wf := by
  induction rs with
  | nil => intro s h; exact h
  | cons r rs ih => intro s h; exact ih (log_append s r) (log_append_wf s r h)

/-- C6: on every log state, the append of the job runner adds `r` after the
records already held when fewer than `LOG_MAX = 512` are held (the count grows
by 1 and the earlier records are unchanged), and leaves the log exactly as it
was when 512 are held; the count is at most 512 afterwards, and stays so under
any further appends. -/
theorem log_append_all_or_nothing (s : log_state) (r : job_log_t) (hwf : s.wf) :
    (s.g_log_count < 512 →
      (log_append s r).records = s.records ++ [r] ∧
      (log_append s r).g_log_count = s.g_log_count + 1) ∧
    (s.g_log_count = 512 → log_append s r = s) ∧
    (log_append s r).g_log_count ≤ 512 ∧
    ((log_append s r).records.length : Int) = (log_append s r).g_log_count ∧
    (∀ rs : List job_log_t, (rs.foldl log_append (log_append s r)).g_log_count ≤ 512) := by
  refine ⟨fun h => ⟨log_append_records s r hwf h, ?_⟩, fun h => ?_,
    (log_append_wf s r hwf).2.2, log_records_length _ (log_append_wf s r hwf),
    fun rs => (log_appends_wf rs _ (log_append_wf s r hwf)).2.2⟩
  · unfold log_append LOG_MAX
    rw [if_pos h]
  · unfold log_append LOG_MAX
    rw [if_neg (by omega)]

/-- The lengths of the two sample logs. -/
theorem sample_logs_wf : log_init.wf ∧ log_full.wf :=
  ⟨⟨List.length_replicate _ _, by decide, by decide⟩,
   ⟨List.length_replicate _ _, by decide, by decide⟩⟩

/-- C6 on the empty log, where the record is added, and on a full log, which is
left as it was. -/
theorem log_append_all_or_nothing_witness :
    (log_init.wf ∧ (log_append log_init record_sample).records = [record_sample] ∧
      (log_append log_init record_sample).g_log_count = 1) ∧
    (log_full.wf ∧ log_append log_full record_sample = log_full) :=
  ⟨⟨sample_logs_wf.1,
    by
      have h := (log_append_all_or_nothing log_init record_sample sample_logs_wf.1).1
        (by decide)
      exact ⟨by rw [h.1]; rfl, by rw [h.2]; rfl⟩⟩,
   ⟨sample_logs_wf.2,
    (log_append_all_or_nothing log_full record_sample sample_logs_wf.2).2.1 rfl⟩⟩

/-! ## Theorems: the job runner -/

/-- What a busy-wait loop that ends leaves behind: no sleep, no random draw, at
least one more clock reading, and the last reading fails the loop test. -/
theorem busy_loop_some (e : kernel_env) (t0 ms : Nat) :
    ∀ (fuel : Nat) (c c' : thread_io), busy_loop e t0 ms fuel c = some c' →
      c'.sleeps = c.sleeps ∧ c'.rands = c.rands ∧ c.reads + 1 ≤ c'.reads ∧
      ms ≤ (e.uptime (c'.reads - 1) % 4294967296 + 4294967296 - t0) % 4294967296 := by
  intro fuel
  induction fuel with
  | zero => intro c c' h; simp [busy_loop] at h
  | succ fuel ih =>
    intro c c' h
    unfold busy_loop now_ms at h
    dsimp only at h
    split at h
    · obtain ⟨h1, h2, h3, h4⟩ := ih _ _ h
      exact ⟨h1, h2, by dsimp only at h3; omega, h4⟩
    · rename_i hlt
      cases h
      exact ⟨rfl, rfl, Nat.le_refl _, by simpa using hlt⟩

/-- What a `busy_ms` that returns leaves behind. -/
theorem busy_ms_some (e : kernel_env) (fuel ms : Nat) (c c' : thread_io)
    (h : busy_ms e fuel ms c = some c') :
    c'.sleeps = c.sleeps ∧ c'.rands = c.rands ∧ c.reads + 2 ≤ c'.reads ∧
    ms ≤ (e.uptime (c'.reads - 1) % 4294967296 + 4294967296
            - e.uptime c.reads % 4294967296) % 4294967296 := by
  unfold busy_ms now_ms at h
  obtain ⟨h1, h2, h3, h4⟩ := busy_loop_some e _ ms fuel _ c' h
  exact ⟨h1, h2, by dsimp only at h3; omega, h4⟩

/-- The record and the locals one job leaves, read off the body of the loop. -/
theorem task_job_some (e : kernel_env) (fuel : Nat) (st st1 : task_locals) (r : job_log_t)
    (h : task_job e fuel st = some (r, st1)) :
    (r.task_id = st.cfg.id ∧ r.job_id = st.job ∧
      r.release_ms = (st.next_release + st.cfg.period_ms) % 4294967296 ∧
      r.deadline_abs_ms = (r.release_ms + st.cfg.deadline_ms) % 4294967296 ∧
      r.met_deadline = (if r.finish_ms ≤ r.deadline_abs_ms then 1 else 0)) ∧
    (st1.cfg = st.cfg ∧ st1.job = st.job ∧ st1.next_release = r.release_ms) ∧
    (r.start_ms = e.uptime (st.io.reads + 1) % 4294967296 ∧
      r.finish_ms = e.uptime (st1.io.reads - 1) % 4294967296 ∧
      st.io.reads + 5 ≤ st1.io.reads ∧ st1.io.rands = st.io.rands + 1) ∧
    ((∀ p ∈ st.io.sleeps, p ∈ st1.io.sleeps) ∧
      (st.io.reads, e.rand32 st.io.rands % 4294967296 % 10) ∈ st1.io.sleeps ∧
      (0 < sub_int32 (to_int32 r.release_ms) (to_int32 (e.uptime st.io.reads % 4294967296)) →
        (st.io.reads + 1,
          (sub_int32 (to_int32 r.release_ms)
            (to_int32 (e.uptime st.io.reads % 4294967296))).toNat) ∈ st1.io.sleeps)) := by
  unfold task_job sys_rand32_get k_sleep now_ms at h
  dsimp only at h
  split at h
  · exact absurd h (by simp)
  · rename_i c6 hb
    obtain ⟨hs, hr, hreads, _⟩ := busy_ms_some _ _ _ _ _ hb
    simp only [Option.some.injEq, Prod.mk.injEq] at h
    obtain ⟨hrec, hst⟩ := h
    subst hrec
    subst hst
    dsimp only
    refine ⟨⟨rfl, rfl, rfl, rfl, rfl⟩, ⟨rfl, rfl, rfl⟩, ⟨?_, ?_, ?_, ?_⟩, ⟨?_, ?_, ?_⟩⟩
    · split <;> rfl
    · simp
    · split at hreads <;> dsimp only at hreads <;> omega
    · rw [hr]; split <;> rfl
    · intro p hp
      rw [hs]
      split
      · exact List.mem_cons_of_mem _ (List.mem_cons_of_mem _ hp)
      · exact List.mem_cons_of_mem _ hp
    · rw [hs]
      split
      · exact List.mem_cons_of_mem _ (List.mem_cons_self _ _)
      · exact List.mem_cons_self _ _
    · intro hd
      rw [hs, if_pos hd]
      exact List.mem_cons_self _ _

/-- The append either adds the record at the end or, on a full log, changes
nothing. -/
theorem log_append_records_cases (s : log_state) (r : job_log_t) (hwf : s.wf) :
    (log_append s r).records = s.records ++ [r] ∨ (log_append s r).records = s.records := by
  by_cases h : s.g_log_count < 512
  · exact Or.inl (log_append_records s r hwf h)
  · right
    unfold log_append LOG_MAX
    rw [if_neg h]

/-- One pass through the loop body is the job followed by the append and
`job++`. -/
theorem task_iter_some (e : kernel_env) (fuel : Nat) (st st2 : task_locals)
    (log log2 : log_state) (h : task_iter e fuel st log = some (st2, log2)) :
    ∃ r st1, task_job e fuel st = some (r, st1) ∧
      st2 = { st1 with job := st1.job + 1 } ∧ log2 = log_append log r := by
  unfold task_iter at h
  split at h
  · exact absurd h (by simp)
  · rename_i r st1 hj
    simp only [Option.some.injEq, Prod.mk.injEq] at h
    exact ⟨r, st1, hj, h.1.symm, h.2.symm⟩

/-- The loop leaves at once when `job < 10` fails. -/
theorem task_loop_done (e : kernel_env) (fuel n : Nat) (st : task_locals) (log : log_state)
    (h : ¬ st.job < 10) :
    task_loop e fuel (n + 1) st log = { finished := true, locals := st, log := log } := by
  rw [task_loop, if_neg h]

/-- The loop stays in a pass whose busy-wait does not end. -/
theorem task_loop_stuck (e : kernel_env) (fuel n : Nat) (st : task_locals) (log : log_state)
    (h : st.job < 10) (hit : task_iter e fuel st log = none) :
    task_loop e fuel (n + 1) st log = { finished := false, locals := st, log := log } := by
  rw [task_loop, if_pos h, hit]

/-- The loop goes on after a pass that ends. -/
theorem task_loop_pass (e : kernel_env) (fuel n : Nat) (st st2 : task_locals)
    (log log2 : log_state) (h : st.job < 10)
    (hit : task_iter e fuel st log = some (st2, log2)) :
    task_loop e fuel (n + 1) st log = task_loop e fuel n st2 log2 := by
  rw [task_loop, if_pos h, hit]

/-- The sleeps recorded before the loop are still recorded after it. -/
theorem task_loop_sleeps_mono (e : kernel_env) (fuel : Nat) :
    ∀ (n : Nat) (st : task_locals) (log : log_state),
      ∀ p ∈ st.io.sleeps, p ∈ (task_loop e fuel n st log).locals.io.sleeps := by
  intro n
  induction n with
  | zero => intro st log p hp; exact hp
  | succ n ih =>
    intro st log p hp
    by_cases hlt : st.job < 10
    · cases hit : task_iter e fuel st log with
      | none => rw [task_loop_stuck _ _ _ _ _ hlt hit]; exact hp
      | some q =>
        obtain ⟨st2, log2⟩ := q
        rw [task_loop_pass _ _ _ _ _ _ _ hlt hit]
        obtain ⟨r, st1, hj, hst2, _⟩ := task_iter_some _ _ _ _ _ _ hit
        apply ih
        rw [hst2]
        exact (task_job_some _ _ _ _ _ hj).2.2.2.1 p hp
    · rw [task_loop_done _ _ _ _ _ hlt]; exact hp

/-- A property of records that every job establishes, given an invariant of the
locals that every pass keeps, holds of all the records the loop appends.  The
list `S` bounds the sleeps recorded by the end of the loop, so that a step may
use an assumption made on them. -/
theorem task_loop_records (e : kernel_env) (fuel : Nat) (S : List (Nat × Nat))
    (I : task_locals → Prop) (P : job_log_t → Prop)
    (hstep : ∀ (st st1 : task_locals) (r : job_log_t), I st →
      task_job e fuel st = some (r, st1) → (∀ p ∈ st1.io.sleeps, p ∈ S) →
      P r ∧ I { st1 with job := st1.job + 1 }) :
    ∀ (n : Nat) (st : task_locals) (log : log_state), I st → log.wf →
      (∀ p ∈ (task_loop e fuel n st log).locals.io.sleeps, p ∈ S) →
      ∃ recs, (task_loop e fuel n st log).log.records = log.records ++ recs ∧
        ∀ r ∈ recs, P r := by
  intro n
  induction n with
  | zero => intro st log _ _ _; exact ⟨[], by simp [task_loop], by simp⟩
  | succ n ih =>
    intro st log hI hwf hS
    by_cases hlt : st.job < 10
    · cases hit : task_iter e fuel st log with
      | none =>
        rw [task_loop_stuck _ _ _ _ _ hlt hit]
        exact ⟨[], by simp, by simp⟩
      | some q =>
        obtain ⟨st2, log2⟩ := q
        rw [task_loop_pass _ _ _ _ _ _ _ hlt hit] at hS ⊢
        obtain ⟨r, st1, hj, hst2, hlog2⟩ := task_iter_some _ _ _ _ _ _ hit
        have hsl1 : ∀ p ∈ st1.io.sleeps, p ∈ S := by
          intro p hp
          apply hS
          apply task_loop_sleeps_mono
          rw [hst2]
          exact hp
        obtain ⟨hP, hI2⟩ := hstep st st1 r hI hj hsl1
        have hwf2 : log2.wf := by rw [hlog2]; exact log_append_wf log r hwf
        obtain ⟨recs, hrecs, hall⟩ := ih st2 log2 (by rw [hst2]; exact hI2) hwf2 hS
        rcases log_append_records_cases log r hwf with hc | hc
        · refine ⟨r :: recs, ?_, ?_⟩
          · rw [hrecs, hlog2, hc]; simp
          · intro x hx
            rcases List.mem_cons.mp hx with hx | hx
            · rw [hx]; exact hP
            · exact hall x hx
        · exact ⟨recs, by rw [hrecs, hlog2, hc], hall⟩
    · rw [task_loop_done _ _ _ _ _ hlt]
      exact ⟨[], by simp, by simp⟩

/-- The flag `met = (finish_ts <= deadline_abs) ? 1 : 0` is 1 exactly when the
comparison holds and 0 exactly when it fails. -/
theorem met_flag_iff (m : Int) (a b : Nat) (hm : m = if a ≤ b then 1 else 0) :
    (m = 1 ↔ a ≤ b) ∧ (m = 0 ↔ ¬ a ≤ b) := by
  subst hm
  by_cases h : a ≤ b <;> simp [h]

/-- C2, as the code has it: every record a job runner appends has
`deadline_abs_ms = (release_ms + deadline_ms) mod 2^32`, the sum being a
`uint32_t`, and `met_deadline` is 1 exactly when `finish_ms` is at most that
wrapped sum and 0 otherwise; whenever `release_ms + deadline_ms < 2^32` this is
the unwrapped sum. -/
theorem task_entry_deadline_fields (e : kernel_env) (fuel : Nat) (cfg : task_cfg_t)
    (log : log_state) (hwf : log.wf) :
    ∃ recs, (task_entry e fuel cfg log).log.records = log.records ++ recs ∧
      ∀ r ∈ recs,
        r.deadline_abs_ms = (r.release_ms + cfg.deadline_ms) % 4294967296 ∧
        (r.met_deadline = 1 ↔ r.finish_ms ≤ (r.release_ms + cfg.deadline_ms) % 4294967296) ∧
        (r.met_deadline = 0 ↔ ¬ r.finish_ms ≤ (r.release_ms + cfg.deadline_ms) % 4294967296) ∧
        (r.release_ms + cfg.deadline_ms < 4294967296 →
          r.deadline_abs_ms = r.release_ms + cfg.deadline_ms ∧
          (r.met_deadline = 1 ↔ r.finish_ms ≤ r.release_ms + cfg.deadline_ms) ∧
          (r.met_deadline = 0 ↔ ¬ r.finish_ms ≤ r.release_ms + cfg.deadline_ms)) := by
  unfold task_entry
  apply task_loop_records e fuel _ (fun st => st.cfg = cfg) _ _ fuel _ log rfl hwf
    (fun p hp => hp)
  intro st st1 r hI hj _
  obtain ⟨⟨_, _, _, hd, hm⟩, ⟨hc, _, _⟩, _, _⟩ := task_job_some _ _ _ _ _ hj
  rw [hI] at hd
  rw [hd] at hm
  have hflag := met_flag_iff _ _ _ hm
  refine ⟨⟨hd, hflag.1, hflag.2, ?_⟩, hc.trans hI⟩
  intro hlt
  rw [Nat.mod_eq_of_lt hlt] at hd hflag
  exact ⟨hd, hflag.1, hflag.2⟩

/-- C2 with the first descriptor of `TASKS` on the empty log. -/
theorem task_entry_deadline_fields_witness :
    log_init.wf ∧
    ∃ recs, (task_entry env_wake 11 cfg_rt0 log_init).log.records = log_init.records ++ recs ∧
      ∀ r ∈ recs,
        r.deadline_abs_ms = (r.release_ms + cfg_rt0.deadline_ms) % 4294967296 ∧
        (r.met_deadline = 1 ↔
          r.finish_ms ≤ (r.release_ms + cfg_rt0.deadline_ms) % 4294967296) ∧
        (r.met_deadline = 0 ↔
          ¬ r.finish_ms ≤ (r.release_ms + cfg_rt0.deadline_ms) % 4294967296) ∧
        (r.release_ms + cfg_rt0.deadline_ms < 4294967296 →
          r.deadline_abs_ms = r.release_ms + cfg_rt0.deadline_ms ∧
          (r.met_deadline = 1 ↔ r.finish_ms ≤ r.release_ms + cfg_rt0.deadline_ms) ∧
          (r.met_deadline = 0 ↔ ¬ r.finish_ms ≤ r.release_ms + cfg_rt0.deadline_ms)) :=
  ⟨sample_logs_wf.1, task_entry_deadline_fields env_wake 11 cfg_rt0 log_init sample_logs_wf.1⟩

set_option maxRecDepth 100000 in
/-- C2 as stated fails where the `uint32_t` sum wraps: for a well-formed
descriptor with `deadline_ms = 2^32 - 1` the first record the runner appends has
`release_ms = 50` and `deadline_abs_ms = 49`, not `50 + (2^32 - 1)`, and
`met_deadline = 0` although `finish_ms = 250 ≤ 50 + (2^32 - 1)`. -/
theorem deadline_abs_wraps :
    cfg_deadline_max.wf ∧
    (task_entry env_wake 11 cfg_deadline_max log_init).log.records.head? = some
      { task_id := 0, job_id := 0, release_ms := 50, start_ms := 100, finish_ms := 250,
        deadline_abs_ms := 49, met_deadline := 0 } ∧
    ¬ (∀ r ∈ (task_entry env_wake 11 cfg_deadline_max log_init).log.records,
        r.deadline_abs_ms = r.release_ms + cfg_deadline_max.deadline_ms ∧
        (r.met_deadline = 1 ↔ r.finish_ms ≤ r.release_ms + cfg_deadline_max.deadline_ms)) := by
  refine ⟨by decide, by decide, by decide⟩

/-- A non-decreasing clock reads no less at a later reading. -/
theorem clock_nondecreasing_le (e : kernel_env) (h : clock_nondecreasing e) (i j : Nat)
    (hij : i ≤ j) : e.uptime i % 4294967296 ≤ e.uptime j % 4294967296 := by
  induction j with
  | zero =>
    have : i = 0 := by omega
    rw [this]
  | succ j ih =>
    by_cases hj : i = j + 1
    · rw [hj]
    · exact Nat.le_trans (ih (by omega)) (h j)

/-- The sleep until the release: with a period below `2^31`, a clock reading `n`
not before the previous release `prev`, and a later reading `start` that is at
least `delay` ms after `n` when the signed `delay` is positive, `start` is not
before the new release. -/
theorem release_le_start (prev period n start : Nat) (hprev : prev ≤ n)
    (hn : n < 4294967296) (hs : start < 4294967296) (hns : n ≤ start)
    (hper : period < 2147483648)
    (hsl : 0 < sub_int32 (to_int32 ((prev + period) % 4294967296)) (to_int32 n) →
      n + (sub_int32 (to_int32 ((prev + period) % 4294967296)) (to_int32 n)).toNat ≤ start) :
    (prev + period) % 4294967296 ≤ start := by
  unfold sub_int32 to_int32 at hsl
  split at hsl <;> split at hsl <;> omega

/-- C5, as the code has it: every record a job runner appends has
`finish_ms ≥ start_ms ≥ release_ms`, assuming that the clock `now_ms` is
non-decreasing, that a `k_sleep` of `d` ms returns only after the clock has
advanced by at least `d`, and that the descriptor's `period_ms` is below
`2^31`. -/
theorem task_entry_times_ordered (e : kernel_env) (fuel : Nat) (cfg : task_cfg_t)
    (log : log_state) (hwf : log.wf) (hper : cfg.period_ms < 2147483648)
    (hmono : clock_nondecreasing e)
    (hsleep : sleeps_respected e (task_entry e fuel cfg log).locals.io) :
    ∃ recs, (task_entry e fuel cfg log).log.records = log.records ++ recs ∧
      ∀ r ∈ recs, r.release_ms ≤ r.start_ms ∧ r.start_ms ≤ r.finish_ms := by
  unfold task_entry now_ms
  apply task_loop_records e fuel (task_entry e fuel cfg log).locals.io.sleeps
    (fun st => st.cfg = cfg ∧ 1 ≤ st.io.reads ∧
      st.next_release ≤ e.uptime (st.io.reads - 1) % 4294967296) _ _ fuel _ log
    ⟨rfl, Nat.le_refl 1, Nat.le_refl _⟩ hwf (fun p hp => hp)
  intro st st1 r hI hj hS
  obtain ⟨hcfg, hreads, hprev⟩ := hI
  obtain ⟨⟨_, _, hrel, _, _⟩, ⟨hc, _, hnr⟩, ⟨hstart, hfin, hr1, _⟩, ⟨_, _, hdelay⟩⟩ :=
    task_job_some _ _ _ _ _ hj
  rw [hcfg] at hrel
  have hrs : r.release_ms ≤ r.start_ms := by
    rw [hrel, hstart]
    apply release_le_start st.next_release cfg.period_ms (e.uptime st.io.reads % 4294967296)
    · exact Nat.le_trans hprev (clock_nondecreasing_le e hmono _ _ (by omega))
    · exact Nat.mod_lt _ (by decide)
    · exact Nat.mod_lt _ (by decide)
    · exact hmono _
    · exact hper
    · intro hd
      rw [← hrel] at hd ⊢
      have := hsleep _ (hS _ (hdelay hd))
      simpa using this
  have hsf : r.start_ms ≤ r.finish_ms := by
    rw [hstart, hfin]
    exact clock_nondecreasing_le e hmono _ _ (by omega)
  refine ⟨⟨hrs, hsf⟩, hc.trans hcfg, ?_, ?_⟩
  · show 1 ≤ st1.io.reads
    omega
  · show st1.next_release ≤ e.uptime (st1.io.reads - 1) % 4294967296
    rw [hnr, ← hfin]
    exact Nat.le_trans hrs hsf

/-- The clock of `env_wake` stays below `2^32`. -/
theorem env_wake_lt (i : Nat) : env_wake.uptime i < 4294967296 := by
  show (if i = 0 then 0 else if i = 1 then 10
    else if i < 80000000 then 50 * i else 4000000000) < 4294967296
  split_ifs <;> omega

/-- The clock of `env_wake` is non-decreasing. -/
theorem env_wake_nondecreasing : clock_nondecreasing env_wake := by
  intro i
  rw [Nat.mod_eq_of_lt (env_wake_lt i), Nat.mod_eq_of_lt (env_wake_lt (i + 1))]
  show (if i = 0 then 0 else if i = 1 then 10
      else if i < 80000000 then 50 * i else 4000000000)
    ≤ (if i + 1 = 0 then 0 else if i + 1 = 1 then 10
      else if i + 1 < 80000000 then 50 * (i + 1) else 4000000000)
  split_ifs <;> first | contradiction | omega

/-- The clock of `env_slow` is non-decreasing. -/
theorem env_slow_nondecreasing : clock_nondecreasing env_slow := by
  intro i
  show (if i < 4294967295 then i else 4294967295) % 4294967296
    ≤ (if i + 1 < 4294967295 then i + 1 else 4294967295) % 4294967296
  split_ifs <;> omega

set_option maxRecDepth 100000 in
/-- C5 with the first descriptor of `TASKS` on the empty log, under a clock that
is non-decreasing and honours every sleep of the run, among them the 40 ms sleep
until the first release. -/
theorem task_entry_times_ordered_witness :
    (log_init.wf ∧ cfg_rt0.period_ms < 2147483648 ∧ clock_nondecreasing env_wake ∧
      sleeps_respected env_wake (task_entry env_wake 11 cfg_rt0 log_init).locals.io ∧
      (2, 40) ∈ (task_entry env_wake 11 cfg_rt0 log_init).locals.io.sleeps) ∧
    ∃ recs, (task_entry env_wake 11 cfg_rt0 log_init).log.records = log_init.records ++ recs ∧
      ∀ r ∈ recs, r.release_ms ≤ r.start_ms ∧ r.start_ms ≤ r.finish_ms :=
  ⟨⟨sample_logs_wf.1, by decide, env_wake_nondecreasing, by unfold sleeps_respected; decide,
    by decide⟩,
   task_entry_times_ordered env_wake 11 cfg_rt0 log_init sample_logs_wf.1 (by decide)
    env_wake_nondecreasing (by unfold sleeps_respected; decide)⟩

set_option maxRecDepth 100000 in
/-- C5 as stated fails for a period of `2^31` ms or more: with
`period_ms = 2^32 - 2^27`, under a clock that is non-decreasing and honours every
sleep of the run, the runner finishes its ten jobs and the first record it
appends has `release_ms = 4160749568` and `start_ms = 2`: the signed 32-bit
`delay` is negative, so the runner does not wait for the release. -/
theorem start_before_release_on_huge_period :
    cfg_period_huge.wf ∧ clock_nondecreasing env_slow ∧
    sleeps_respected env_slow (task_entry env_slow 11 cfg_period_huge log_init).locals.io ∧
    (task_entry env_slow 11 cfg_period_huge log_init).finished = true ∧
    (task_entry env_slow 11 cfg_period_huge log_init).log.records.head? = some
      { task_id := 0, job_id := 0, release_ms := 4160749568, start_ms := 2, finish_ms := 12,
        deadline_abs_ms := 4160749618, met_deadline := 1 } ∧
    ¬ (∀ r ∈ (task_entry env_slow 11 cfg_period_huge log_init).log.records,
        r.release_ms ≤ r.start_ms ∧ r.start_ms ≤ r.finish_ms) := by
  refine ⟨by decide, env_slow_nondecreasing, by unfold sleeps_respected; decide,
    by decide, by decide, by decide⟩

/-- A busy-wait loop whose test fails at the reading `d` readings ahead ends,
with the same result for every fuel above `d`. -/
theorem busy_loop_ends (e : kernel_env) (t0 ms : Nat) :
    ∀ (d : Nat) (c : thread_io),
      ms ≤ (e.uptime (c.reads + d) % 4294967296 + 4294967296 - t0) % 4294967296 →
      ∃ c', ∀ fuel, d + 1 ≤ fuel → busy_loop e t0 ms fuel c = some c' := by
  intro d
  induction d with
  | zero =>
    intro c h
    refine ⟨{ c with reads := c.reads + 1 }, fun fuel hf => ?_⟩
    obtain ⟨f, rfl⟩ : ∃ f, fuel = f + 1 := ⟨fuel - 1, by omega⟩
    unfold busy_loop now_ms
    dsimp only
    rw [if_neg (by simpa using h)]
  | succ d ih =>
    intro c h
    by_cases hnow : (e.uptime c.reads % 4294967296 + 4294967296 - t0) % 4294967296 < ms
    · obtain ⟨c', hc'⟩ := ih { c with reads := c.reads + 1 }
        (by
          show ms ≤ (e.uptime (c.reads + 1 + d) % 4294967296 + 4294967296 - t0) % 4294967296
          rw [Nat.add_right_comm, Nat.add_assoc]
          exact h)
      refine ⟨c', fun fuel hf => ?_⟩
      obtain ⟨f, rfl⟩ : ∃ f, fuel = f + 1 := ⟨fuel - 1, by omega⟩
      unfold busy_loop now_ms
      dsimp only
      rw [if_pos hnow]
      exact hc' f (by omega)
    · refine ⟨{ c with reads := c.reads + 1 }, fun fuel hf => ?_⟩
      obtain ⟨f, rfl⟩ : ∃ f, fuel = f + 1 := ⟨fuel - 1, by omega⟩
      unfold busy_loop now_ms
      dsimp only
      rw [if_neg hnow]

/-- Under `busy_wait_ends`, `busy_ms` returns, with the same result for every
fuel large enough. -/
theorem busy_ms_ends (e : kernel_env) (ms : Nat) (hprog : busy_wait_ends e ms)
    (c : thread_io) : ∃ F c', ∀ fuel, F ≤ fuel → busy_ms e fuel ms c = some c' := by
  obtain ⟨j, hij, hj⟩ := hprog c.reads
  obtain ⟨c', hc'⟩ := busy_loop_ends e (e.uptime c.reads % 4294967296) ms (j - (c.reads + 1))
    { c with reads := c.reads + 1 }
    (by
      show ms ≤ (e.uptime (c.reads + 1 + (j - (c.reads + 1))) % 4294967296 + 4294967296
        - e.uptime c.reads % 4294967296) % 4294967296
      rw [Nat.add_sub_cancel' hij]
      exact hj)
  exact ⟨j - (c.reads + 1) + 1, c', fun fuel hf => hc' fuel hf⟩

/-- Under `busy_wait_ends`, a job completes, with the same record and locals
for every fuel large enough. -/
theorem task_job_ends (e : kernel_env) (st : task_locals)
    (hprog : busy_wait_ends e st.cfg.wcet_ms) :
    ∃ F r st1, ∀ fuel, F ≤ fuel → task_job e fuel st = some (r, st1) := by
  unfold task_job
  dsimp only
  obtain ⟨F, c6, hF⟩ := busy_ms_ends e st.cfg.wcet_ms hprog
    (now_ms e
      (if sub_int32 (to_int32 ((st.next_release + st.cfg.period_ms) % 4294967296))
            (to_int32 (now_ms e (k_sleep ((sys_rand32_get e st.io).1 % 10)
              (sys_rand32_get e st.io).2)).1) > 0 then
        k_sleep (sub_int32 (to_int32 ((st.next_release + st.cfg.period_ms) % 4294967296))
            (to_int32 (now_ms e (k_sleep ((sys_rand32_get e st.io).1 % 10)
              (sys_rand32_get e st.io).2)).1)).toNat
          (now_ms e (k_sleep ((sys_rand32_get e st.io).1 % 10) (sys_rand32_get e st.io).2)).2
      else (now_ms e (k_sleep ((sys_rand32_get e st.io).1 % 10)
        (sys_rand32_get e st.io).2)).2)).2
  refine ⟨F, ?r, ?st1, fun fuel hf => ?main⟩
  case main => rw [hF fuel hf]; exact rfl


/-- Under `busy_wait_ends`, the loop of `task_entry` is left after at most `k`
passes when at most `k` jobs remain, for every fuel large enough. -/
theorem task_loop_ends (e : kernel_env) (ms : Nat) (hprog : busy_wait_ends e ms) :
    ∀ (k : Nat) (st : task_locals), st.cfg.wcet_ms = ms → 10 - st.job ≤ k →
      ∃ F, ∀ (fuel n : Nat) (log : log_state), F ≤ fuel → k + 1 ≤ n →
        (task_loop e fuel n st log).finished = true := by
  intro k
  induction k with
  | zero =>
    intro st _ hk
    refine ⟨0, fun fuel n log _ hn => ?_⟩
    obtain ⟨m, rfl⟩ : ∃ m, n = m + 1 := ⟨n - 1, by omega⟩
    rw [task_loop_done _ _ _ _ _ (by omega)]
  | succ k ih =>
    intro st hms hk
    by_cases hlt : st.job < 10
    · obtain ⟨F1, r, st1, hj⟩ := task_job_ends e st (by rw [hms]; exact hprog)
      obtain ⟨_, ⟨hc, hjob, _⟩, _, _⟩ := task_job_some _ _ _ _ _ (hj F1 (Nat.le_refl F1))
      obtain ⟨F2, h2⟩ := ih { st1 with job := st1.job + 1 }
        (by show st1.cfg.wcet_ms = ms; rw [hc]; exact hms)
        (by show 10 - (st1.job + 1) ≤ (k : Int); rw [hjob]; omega)
      refine ⟨max F1 F2, fun fuel n log hf hn => ?_⟩
      obtain ⟨m, rfl⟩ : ∃ m, n = m + 1 := ⟨n - 1, by omega⟩
      have hit : task_iter e fuel st log
          = some ({ st1 with job := st1.job + 1 }, log_append log r) := by
        unfold task_iter
        rw [hj fuel (by omega)]
      rw [task_loop_pass _ _ _ _ _ _ _ hlt hit]
      exact h2 fuel m _ (by omega) (by omega)
    · refine ⟨0, fun fuel n log _ hn => ?_⟩
      obtain ⟨m, rfl⟩ : ∃ m, n = m + 1 := ⟨n - 1, by omega⟩
      rw [task_loop_done _ _ _ _ _ hlt]

/-- While the log has room for the jobs that remain, the loop appends one
record per completed pass, numbered from the current `job` upwards without gap,
each carrying the descriptor's id; when the loop is left, it has appended a
record for every job that remained. -/
theorem task_loop_job_ids (e : kernel_env) (fuel : Nat) :
    ∀ (n : Nat) (st : task_locals) (log : log_state), log.wf → st.job ≤ 10 →
      log.g_log_count + (10 - st.job) ≤ 512 →
      ∃ recs, (task_loop e fuel n st log).log.records = log.records ++ recs ∧
        recs.map job_log_t.job_id
          = (List.range recs.length).map (fun (i : Nat) => st.job + (i : Int)) ∧
        (∀ r ∈ recs, r.task_id = st.cfg.id) ∧
        (recs.length : Int) ≤ 10 - st.job ∧
        ((task_loop e fuel n st log).finished = true → (recs.length : Int) = 10 - st.job) := by
  intro n
  induction n with
  | zero =>
    intro st log _ hj _
    exact ⟨[], by simp [task_loop], by simp, by simp, by simpa using hj, by simp [task_loop]⟩
  | succ n ih =>
    intro st log hwf hj10 hroom
    by_cases hlt : st.job < 10
    · cases hit : task_iter e fuel st log with
      | none =>
        rw [task_loop_stuck _ _ _ _ _ hlt hit]
        exact ⟨[], by simp, by simp, by simp, by simpa using hj10, by simp⟩
      | some q =>
        obtain ⟨st2, log2⟩ := q
        rw [task_loop_pass _ _ _ _ _ _ _ hlt hit]
        obtain ⟨r, st1, hj, hst2, hlog2⟩ := task_iter_some _ _ _ _ _ _ hit
        obtain ⟨⟨htid, hjid, _⟩, ⟨hc, hjob, _⟩, _, _⟩ := task_job_some _ _ _ _ _ hj
        have hcount : log.g_log_count < 512 := by omega
        have hwf2 : log2.wf := by rw [hlog2]; exact log_append_wf log r hwf
        have hcount2 : log2.g_log_count = log.g_log_count + 1 := by
          rw [hlog2]; unfold log_append LOG_MAX; rw [if_pos hcount]
        have hjob2 : st2.job = st.job + 1 := by rw [hst2]; show st1.job + 1 = _; rw [hjob]
        have hcfg2 : st2.cfg = st.cfg := by rw [hst2]; exact hc
        obtain ⟨recs, hrecs, hids, htids, hlen, hfin⟩ := ih st2 log2 hwf2 (by omega) (by omega)
        refine ⟨r :: recs, ?_, ?_, ?_, ?_, ?_⟩
        · rw [hrecs, hlog2, log_append_records log r hwf hcount]; simp
        · rw [List.length_cons, List.range_succ_eq_map, List.map_cons, List.map_cons,
            List.map_map, hids, hjid, hjob2]
          simp only [Nat.cast_zero, add_zero, List.cons.injEq, true_and]
          apply List.map_congr_left
          intro i _
          simp only [Function.comp, Nat.cast_succ]
          omega
        · intro x hx
          rcases List.mem_cons.mp hx with hx | hx
          · rw [hx]; exact htid
          · rw [htids x hx, hcfg2]
        · rw [List.length_cons]; push_cast; omega
        · intro h
          rw [List.length_cons]; push_cast
          have := hfin h
          omega
    · rw [task_loop_done _ _ _ _ _ hlt]
      exact ⟨[], by simp, by simp, by simp, by simpa using hj10,
        fun _ => by simp only [List.length_nil, Nat.cast_zero]; omega⟩

/-- C7, as the code has it: a job runner that never meets a full log appends,
whatever the clock and jitter values, at most ten records, numbered 0, 1, 2, ...
in append order without gap or repeat and all carrying the descriptor's id; and
when every busy-wait of `wcet_ms` ends (after any clock reading a later one is at
least `wcet_ms` ahead), it leaves the loop having appended exactly `K = 10`
records, with `job_id` 0, 1, ..., 9 in append order. -/
theorem task_entry_ten_jobs (e : kernel_env) (cfg : task_cfg_t) (log : log_state)
    (hwf : log.wf) (hroom : log.g_log_count + 10 ≤ 512) :
    (∀ fuel, ∃ recs, (task_entry e fuel cfg log).log.records = log.records ++ recs ∧
      recs.length ≤ 10 ∧
      recs.map job_log_t.job_id = (List.range recs.length).map (fun (i : Nat) => (i : Int)) ∧
      ∀ r ∈ recs, r.task_id = cfg.id) ∧
    (busy_wait_ends e cfg.wcet_ms →
      ∃ fuel0, ∀ fuel, fuel0 ≤ fuel →
        (task_entry e fuel cfg log).finished = true ∧
        ∃ recs, (task_entry e fuel cfg log).log.records = log.records ++ recs ∧
          recs.length = 10 ∧
          recs.map job_log_t.job_id = [0, 1, 2, 3, 4, 5, 6, 7, 8, 9] ∧
          ∀ r ∈ recs, r.task_id = cfg.id) := by
  have hall : ∀ fuel, ∃ recs,
      (task_entry e fuel cfg log).log.records = log.records ++ recs ∧
      recs.map job_log_t.job_id = (List.range recs.length).map (fun (i : Nat) => (i : Int)) ∧
      (∀ r ∈ recs, r.task_id = cfg.id) ∧ recs.length ≤ 10 ∧
      ((task_entry e fuel cfg log).finished = true → recs.length = 10) := by
    intro fuel
    unfold task_entry
    obtain ⟨recs, h1, h2, h3, h4, h5⟩ := task_loop_job_ids e fuel fuel
      { cfg := cfg, job := 0,
        next_release := (now_ms e { reads := 0, rands := 0, sleeps := [] }).1,
        io := (now_ms e { reads := 0, rands := 0, sleeps := [] }).2 }
      log hwf (by show (0 : Int) ≤ 10; decide) (by simpa using hroom)
    refine ⟨recs, h1, ?_, h3, ?_, fun h => ?_⟩
    · rw [h2]
      apply List.map_congr_left
      intro i _
      simp
    · simp only [sub_zero] at h4
      exact_mod_cast h4
    · have := h5 h
      simp only [sub_zero] at this
      exact_mod_cast this
  refine ⟨fun fuel => ?_, fun hprog => ?_⟩
  · obtain ⟨recs, h1, h2, h3, h4, _⟩ := hall fuel
    exact ⟨recs, h1, h4, h2, h3⟩
  · obtain ⟨F, hF⟩ := task_loop_ends e cfg.wcet_ms hprog 10
      { cfg := cfg, job := 0,
        next_release := (now_ms e { reads := 0, rands := 0, sleeps := [] }).1,
        io := (now_ms e { reads := 0, rands := 0, sleeps := [] }).2 }
      rfl (by show (10 : Int) - 0 ≤ ((10 : Nat) : Int); decide)
    refine ⟨max F 11, fun fuel hf => ?_⟩
    have hfin : (task_entry e fuel cfg log).finished = true :=
      hF fuel fuel log (by omega) (by omega)
    obtain ⟨recs, h1, h2, h3, _, h5⟩ := hall fuel
    have hlen := h5 hfin
    refine ⟨hfin, recs, h1, hlen, ?_, h3⟩
    rw [h2, hlen]
    decide

/-- Every busy-wait of 8 ms ends under the clock of `env_tick`. -/
theorem env_tick_busy_wait_ends : busy_wait_ends env_tick 8 := by
  intro i
  refine ⟨i + 8, by omega, ?_⟩
  show 8 ≤ ((i + 8) % 4294967296 + 4294967296 - i % 4294967296) % 4294967296
  omega

/-- C7 with the first descriptor of `TASKS` on the empty log, under a clock
that advances by 1 ms from each reading to the next. -/
theorem task_entry_ten_jobs_witness :
    (log_init.wf ∧ log_init.g_log_count + 10 ≤ 512 ∧ busy_wait_ends env_tick cfg_rt0.wcet_ms) ∧
    ∃ fuel0, ∀ fuel, fuel0 ≤ fuel →
      (task_entry env_tick fuel cfg_rt0 log_init).finished = true ∧
      ∃ recs, (task_entry env_tick fuel cfg_rt0 log_init).log.records
          = log_init.records ++ recs ∧
        recs.length = 10 ∧
        recs.map job_log_t.job_id = [0, 1, 2, 3, 4, 5, 6, 7, 8, 9] ∧
        ∀ r ∈ recs, r.task_id = cfg_rt0.id :=
  ⟨⟨sample_logs_wf.1, by decide, env_tick_busy_wait_ends⟩,
   (task_entry_ten_jobs env_tick cfg_rt0 log_init sample_logs_wf.1 (by decide)).2
    env_tick_busy_wait_ends⟩

/-- The busy-wait of 8 ms never ends under the clock of `env_frozen`. -/
theorem busy_loop_frozen : ∀ (fuel : Nat) (c : thread_io),
    busy_loop env_frozen 0 8 fuel c = none := by
  intro fuel
  induction fuel with
  | zero => intro c; rfl
  | succ f ih =>
    intro c
    unfold busy_loop now_ms
    dsimp only
    have h0 : (env_frozen.uptime c.reads % 4294967296 + 4294967296 - 0) % 4294967296 < 8 :=
      show ((0 : Nat) % 4294967296 + 4294967296 - 0) % 4294967296 < 8 by decide
    rw [if_pos h0]
    exact ih _

/-- Under the clock of `env_frozen` the runner of the first descriptor of
`TASKS` stays in its first pass, whatever the fuel. -/
theorem task_entry_frozen (fuel : Nat) :
    (task_entry env_frozen fuel cfg_rt0 log_init).finished = false ∧
    (task_entry env_frozen fuel cfg_rt0 log_init).log = log_init := by
  have hjob : ∀ st : task_locals, st.cfg = cfg_rt0 →
      ∀ log, task_iter env_frozen fuel st log = none := by
    intro st hst log
    unfold task_iter task_job busy_ms
    dsimp only
    rw [hst]
    have := busy_loop_frozen fuel
    simp only [now_ms, env_frozen, cfg_rt0, Nat.zero_mod] at this ⊢
    rw [this]
  unfold task_entry
  cases fuel with
  | zero => exact ⟨rfl, rfl⟩
  | succ f =>
    dsimp only
    rw [task_loop_stuck _ _ _ _ _ (by decide) (hjob _ rfl _)]
    exact ⟨rfl, rfl⟩

/-- C7 as stated fails for a clock that does not advance: with the clock
standing still the first `busy_ms(8)` of the runner of the first descriptor of
`TASKS` never returns, so on the empty log, which is never full, the runner
appends no record and never leaves its loop, whatever the fuel. -/
theorem runner_appends_nothing_on_frozen_clock :
    (cfg_rt0.wf ∧ log_init.wf ∧ log_init.g_log_count + 10 ≤ 512) ∧
    (¬ ∃ fuel, (task_entry env_frozen fuel cfg_rt0 log_init).finished = true) ∧
    (¬ ∃ fuel, (task_entry env_frozen fuel cfg_rt0 log_init).log.records.length = 10) := by
  refine ⟨⟨by decide, sample_logs_wf.1, by decide⟩, ?_, ?_⟩
  · rintro ⟨fuel, h⟩
    rw [(task_entry_frozen fuel).1] at h
    exact absurd h (by decide)
  · rintro ⟨fuel, h⟩
    rw [(task_entry_frozen fuel).2] at h
    exact absurd h (by decide)

/-! ## Theorems: the counters over a run -/

/-- C15, as the code has it: `sched_diag_on_enqueue` and `sched_diag_on_dequeue`
leave `context_switches` as it is, and `sched_diag_on_context_switch`, whatever
its arguments, makes it one more modulo `2^64`: the value after any of the three
calls is at least the value before, except that a context switch counted at
`context_switches = 2^64 - 1` wraps the counter to 0. -/
theorem context_switches_step (g : sched_stats) (f t : Option k_thread) :
    (sched_diag_on_enqueue g).context_switches = g.context_switches ∧
    (sched_diag_on_dequeue g).context_switches = g.context_switches ∧
    (sched_diag_on_context_switch g f t).context_switches
        = (g.context_switches + 1) % 18446744073709551616 ∧
    (g.context_switches + 1 < 18446744073709551616 →
      g.context_switches ≤ (sched_diag_on_enqueue g).context_switches ∧
      g.context_switches ≤ (sched_diag_on_dequeue g).context_switches ∧
      g.context_switches ≤ (sched_diag_on_context_switch g f t).context_switches) ∧
    (g.context_switches + 1 = 18446744073709551616 →
      (sched_diag_on_context_switch g f t).context_switches = 0) := by
  have henq : (sched_diag_on_enqueue g).context_switches = g.context_switches := by
    unfold sched_diag_on_enqueue
    dsimp only
    split <;> rfl
  have hdeq : (sched_diag_on_dequeue g).context_switches = g.context_switches := by
    unfold sched_diag_on_dequeue
    split <;> rfl
  have hcs : (sched_diag_on_context_switch g f t).context_switches
      = (g.context_switches + 1) % 18446744073709551616 := by
    unfold sched_diag_on_context_switch
    dsimp only
    split
    · split <;> rfl
    · rfl
  refine ⟨henq, hdeq, hcs, fun h => ⟨?_, ?_, ?_⟩, fun h => ?_⟩
  · rw [henq]
  · rw [hdeq]
  · rw [hcs, Nat.mod_eq_of_lt h]; omega
  · rw [hcs, h]

/-- C15 as stated fails where the 64-bit counter is full: from the well-formed
state with `context_switches = 2^64 - 1`, a context switch called with both
threads absent leaves `context_switches = 0`, less than before. -/
theorem context_switches_decreases_at_max :
    stats_switches_full.wf ∧
    ¬ (stats_switches_full.context_switches
        ≤ (sched_diag_on_context_switch stats_switches_full none none).context_switches) := by
  refine ⟨by decide, by decide⟩

/-- C17: in the build with diagnostics disabled, no sequence of
`sched_diag_reset`, `sched_diag_on_enqueue`, `sched_diag_on_dequeue` and
`sched_diag_on_context_switch` calls changes the program state, whatever it is,
and a `sched_diag_get` that follows writes 0 to the four fields of `*out`. -/
theorem disabled_build_is_noop {σ : Type} (w : σ) (calls : List diag_call)
    (old : sched_stats) :
    no_diag.run w calls = w ∧
    no_diag.sched_diag_get (some old)
      = some { context_switches := 0, preemptions := 0,
               readyq_len_max := 0, readyq_len_cur := 0 } := by
  refine ⟨?_, rfl⟩
  induction calls with
  | nil => rfl
  | cons c cs ih =>
    show no_diag.run (no_diag.apply w c) cs = w
    have h : no_diag.apply w c = w := by cases c <;> rfl
    rw [h]
    exact ih

/-- The high-water mark of a list of states is at least the `readyq_len_cur` of
its first state. -/
theorem readyq_high_water_cons (g : sched_stats) (l : List sched_stats) :
    readyq_high_water (g :: l) = max g.readyq_len_cur (readyq_high_water l) := rfl

/-- What one hook other than the reset does to `readyq_len_max`: it becomes the
larger of its old value and the new `readyq_len_cur`. -/
theorem diag_call_apply_max (g : sched_stats) (c : diag_call) (hc : c ≠ diag_call.reset)
    (h : g.readyq_len_cur ≤ g.readyq_len_max) :
    (diag_call.apply g c).readyq_len_max
      = max g.readyq_len_max (diag_call.apply g c).readyq_len_cur := by
  cases c with
  | reset => exact absurd rfl hc
  | on_enqueue =>
    show (sched_diag_on_enqueue g).readyq_len_max
      = max g.readyq_len_max (sched_diag_on_enqueue g).readyq_len_cur
    unfold sched_diag_on_enqueue
    dsimp only
    split <;> dsimp only <;> rw [Nat.max_def] <;> split <;> omega
  | on_dequeue =>
    show (sched_diag_on_dequeue g).readyq_len_max
      = max g.readyq_len_max (sched_diag_on_dequeue g).readyq_len_cur
    unfold sched_diag_on_dequeue
    split <;> (try dsimp only) <;> rw [Nat.max_def] <;> split <;> omega
  | on_context_switch f t =>
    show (sched_diag_on_context_switch g f t).readyq_len_max
      = max g.readyq_len_max (sched_diag_on_context_switch g f t).readyq_len_cur
    have h1 : (sched_diag_on_context_switch g f t).readyq_len_max = g.readyq_len_max := by
      unfold sched_diag_on_context_switch
      dsimp only
      split
      · split <;> rfl
      · rfl
    have h2 : (sched_diag_on_context_switch g f t).readyq_len_cur = g.readyq_len_cur := by
      unfold sched_diag_on_context_switch
      dsimp only
      split
      · split <;> rfl
      · rfl
    rw [h1, h2, Nat.max_def]
    split <;> omega


/-- Along a run without reset, started where `readyq_len_cur ≤ readyq_len_max`,
the final `readyq_len_max` is the larger of the starting one and the high-water
mark of `readyq_len_cur` over the run. -/
theorem diag_run_max_eq (calls : List diag_call) :
    ∀ g : sched_stats, g.readyq_len_cur ≤ g.readyq_len_max →
      (∀ c ∈ calls, c ≠ diag_call.reset) →
      (diag_run g calls).readyq_len_max
        = max g.readyq_len_max (readyq_high_water (diag_trace g calls)) := by
  induction calls with
  | nil =>
    intro g h _
    show g.readyq_len_max = max g.readyq_len_max (max g.readyq_len_cur 0)
    rw [Nat.max_def, Nat.max_def]
    split <;> split <;> omega
  | cons c cs ih =>
    intro g h hnr
    have hc : c ≠ diag_call.reset := hnr c (List.mem_cons_self _ _)
    have hstep := diag_call_apply_max g c hc h
    have hinv := diag_call_apply_keeps_cur_le_max g c h
    have hrec := ih (diag_call.apply g c) hinv
      (fun x hx => hnr x (List.mem_cons_of_mem _ hx))
    show (diag_run (diag_call.apply g c) cs).readyq_len_max
      = max g.readyq_len_max
          (max g.readyq_len_cur (readyq_high_water (diag_trace (diag_call.apply g c) cs)))
    rw [hrec, hstep]
    have hhead : (diag_call.apply g c).readyq_len_cur
        ≤ readyq_high_water (diag_trace (diag_call.apply g c) cs) := by
      show _ ≤ max (diag_call.apply g c).readyq_len_cur _
      exact Nat.le_max_left _ _
    generalize readyq_high_water (diag_trace (diag_call.apply g c) cs) = X at hhead ⊢
    generalize (diag_call.apply g c).readyq_len_cur = Y at hhead ⊢
    simp only [Nat.max_def]
    split_ifs <;> omega

/-- Along a run without reset, started where `readyq_len_cur ≤ readyq_len_max`,
`readyq_len_max` never decreases from one state to the next. -/
theorem diag_after_max_chain (calls : List diag_call) :
    ∀ g : sched_stats, g.readyq_len_cur ≤ g.readyq_len_max →
      (∀ c ∈ calls, c ≠ diag_call.reset) →
      List.Chain (fun a b : sched_stats => a.readyq_len_max ≤ b.readyq_len_max) g
        (diag_after g calls) := by
  induction calls with
  | nil => intro g _ _; exact List.Chain.nil
  | cons c cs ih =>
    intro g h hnr
    have hc : c ≠ diag_call.reset := hnr c (List.mem_cons_self _ _)
    refine List.Chain.cons ?_ (ih _ (diag_call_apply_keeps_cur_le_max g c h)
      (fun x hx => hnr x (List.mem_cons_of_mem _ hx)))
    rw [diag_call_apply_max g c hc h]
    exact Nat.le_max_left _ _

/-- C18: after `sched_diag_reset`, along any finite sequence of
`sched_diag_on_enqueue`, `sched_diag_on_dequeue` and
`sched_diag_on_context_switch` calls, the final `readyq_len_max` is the largest
value `readyq_len_cur` has held in any state of the run since the reset (0
included), and `readyq_len_max` never decreases from one state of the run to
the next. -/
theorem readyq_len_max_is_high_water (g : sched_stats) (calls : List diag_call)
    (hnr : ∀ c ∈ calls, c ≠ diag_call.reset) :
    (diag_run (sched_diag_reset g) calls).readyq_len_max
      = readyq_high_water (diag_trace (sched_diag_reset g) calls) ∧
    List.Chain' (fun a b : sched_stats => a.readyq_len_max ≤ b.readyq_len_max)
      (diag_trace (sched_diag_reset g) calls) := by
  refine ⟨?_, diag_after_max_chain calls _ (Nat.le_refl 0) hnr⟩
  rw [diag_run_max_eq calls _ (Nat.le_refl 0) hnr]
  exact Nat.max_eq_right (Nat.zero_le _)

/-- C18 on a run of three enqueues, two dequeues, a context switch and one more
enqueue: the ready queue has held 3 at most and `readyq_len_max` ends at 3. -/
theorem readyq_len_max_is_high_water_witness :
    (∀ c ∈ [diag_call.on_enqueue, diag_call.on_enqueue, diag_call.on_enqueue,
              diag_call.on_dequeue, diag_call.on_dequeue,
              diag_call.on_context_switch (some thread_be) (some thread_rt),
              diag_call.on_enqueue], c ≠ diag_call.reset) ∧
    (diag_run (sched_diag_reset stats_three_ready)
        [diag_call.on_enqueue, diag_call.on_enqueue, diag_call.on_enqueue,
         diag_call.on_dequeue, diag_call.on_dequeue,
         diag_call.on_context_switch (some thread_be) (some thread_rt),
         diag_call.on_enqueue]).readyq_len_max = 3 ∧
    readyq_high_water (diag_trace (sched_diag_reset stats_three_ready)
        [diag_call.on_enqueue, diag_call.on_enqueue, diag_call.on_enqueue,
         diag_call.on_dequeue, diag_call.on_dequeue,
         diag_call.on_context_switch (some thread_be) (some thread_rt),
         diag_call.on_enqueue]) = 3 :=
  ⟨by decide,
   by
    rw [(readyq_len_max_is_high_water stats_three_ready _ (by decide)).1]
    decide,
   by decide⟩

/-- What one call does to the two 64-bit counters while `context_switches` is
not full: `preemptions ≤ context_switches` is kept and `context_switches` grows
by at most 1. -/
theorem diag_call_apply_preempt_le (g : sched_stats) (c : diag_call)
    (h : g.preemptions ≤ g.context_switches)
    (hroom : g.context_switches + 1 < 18446744073709551616) :
    (diag_call.apply g c).preemptions ≤ (diag_call.apply g c).context_switches ∧
    (diag_call.apply g c).context_switches ≤ g.context_switches + 1 := by
  cases c with
  | reset => exact ⟨Nat.le_refl 0, Nat.zero_le _⟩
  | on_enqueue =>
    show (sched_diag_on_enqueue g).preemptions ≤ (sched_diag_on_enqueue g).context_switches ∧
      (sched_diag_on_enqueue g).context_switches ≤ g.context_switches + 1
    unfold sched_diag_on_enqueue
    dsimp only
    split <;> dsimp only <;> omega
  | on_dequeue =>
    show (sched_diag_on_dequeue g).preemptions ≤ (sched_diag_on_dequeue g).context_switches ∧
      (sched_diag_on_dequeue g).context_switches ≤ g.context_switches + 1
    unfold sched_diag_on_dequeue
    split <;> (try dsimp only) <;> omega
  | on_context_switch f t =>
    show (sched_diag_on_context_switch g f t).preemptions
        ≤ (sched_diag_on_context_switch g f t).context_switches ∧
      (sched_diag_on_context_switch g f t).context_switches ≤ g.context_switches + 1
    unfold sched_diag_on_context_switch
    dsimp only
    split
    · split <;> dsimp only <;> omega
    · dsimp only; omega

/-- A run of calls short enough not to fill `context_switches` keeps
`preemptions ≤ context_switches`. -/
theorem diag_run_preempt_le (calls : List diag_call) :
    ∀ g : sched_stats, g.preemptions ≤ g.context_switches →
      g.context_switches + calls.length < 18446744073709551616 →
      (diag_run g calls).preemptions ≤ (diag_run g calls).context_switches := by
  induction calls with
  | nil => intro g h _; exact h
  | cons c cs ih =>
    intro g h hlen
    rw [List.length_cons] at hlen
    obtain ⟨h1, h2⟩ := diag_call_apply_preempt_le g c h (by omega)
    exact ih (diag_call.apply g c) h1 (by omega)

/-- A call other than the reset that changes `preemptions` is a context switch
that is counted: it also makes `context_switches` one more modulo `2^64`. -/
theorem preemption_counted_with_switch (g : sched_stats) (c : diag_call)
    (hc : c ≠ diag_call.reset)
    (hp : (diag_call.apply g c).preemptions ≠ g.preemptions) :
    (diag_call.apply g c).context_switches
      = (g.context_switches + 1) % 18446744073709551616 := by
  cases c with
  | reset => exact absurd rfl hc
  | on_enqueue =>
    exfalso
    apply hp
    show (sched_diag_on_enqueue g).preemptions = g.preemptions
    unfold sched_diag_on_enqueue
    dsimp only
    split <;> rfl
  | on_dequeue =>
    exfalso
    apply hp
    show (sched_diag_on_dequeue g).preemptions = g.preemptions
    unfold sched_diag_on_dequeue
    split <;> rfl
  | on_context_switch f t =>
    show (sched_diag_on_context_switch g f t).context_switches = _
    unfold sched_diag_on_context_switch
    dsimp only
    split
    · split <;> rfl
    · rfl

/-- C19: in every counter state reached from `sched_diag_reset` by a sequence of
fewer than `2^64` calls of the hooks and of `sched_diag_reset`,
`preemptions ≤ context_switches`; and a hook call that changes `preemptions`
counts a context switch in the same call. -/
theorem preemptions_le_context_switches (g : sched_stats) (calls : List diag_call)
    (hlen : calls.length < 18446744073709551616) :
    (diag_run (sched_diag_reset g) calls).preemptions
      ≤ (diag_run (sched_diag_reset g) calls).context_switches ∧
    (∀ (s : sched_stats) (c : diag_call), c ≠ diag_call.reset →
      (diag_call.apply s c).preemptions ≠ s.preemptions →
      (diag_call.apply s c).context_switches
        = (s.context_switches + 1) % 18446744073709551616) :=
  ⟨diag_run_preempt_le calls _ (Nat.le_refl 0) (by
      show 0 + calls.length < 18446744073709551616
      omega),
   preemption_counted_with_switch⟩

/-- C19 on a run of two context switches, the first of them a preemption, with
a reset and an enqueue in between. -/
theorem preemptions_le_context_switches_witness :
    [diag_call.on_context_switch (some thread_be) (some thread_rt), diag_call.reset,
      diag_call.on_enqueue,
      diag_call.on_context_switch (some thread_be) (some thread_rt),
      diag_call.on_context_switch (some thread_rt) (some thread_be)].length
        < 18446744073709551616 ∧
    (diag_run (sched_diag_reset stats_three_ready)
      [diag_call.on_context_switch (some thread_be) (some thread_rt), diag_call.reset,
       diag_call.on_enqueue,
       diag_call.on_context_switch (some thread_be) (some thread_rt),
       diag_call.on_context_switch (some thread_rt) (some thread_be)]).preemptions
      ≤ (diag_run (sched_diag_reset stats_three_ready)
      [diag_call.on_context_switch (some thread_be) (some thread_rt), diag_call.reset,
       diag_call.on_enqueue,
       diag_call.on_context_switch (some thread_be) (some thread_rt),
       diag_call.on_context_switch (some thread_rt) (some thread_be)]).context_switches :=
  ⟨by decide, (preemptions_le_context_switches stats_three_ready _ (by decide)).1⟩

/-! ## Theorems: the nominal release times -/

/-- The function `task_entry` is its loop started on the locals `task_init`. -/
theorem task_entry_eq_loop (e : kernel_env) (fuel : Nat) (cfg : task_cfg_t) (log : log_state) :
    task_entry e fuel cfg log = task_loop e fuel fuel (task_init e cfg) log := rfl

/-- Adding the period to a release that is `start + j * period` modulo `2^32`
gives `start + (j + 1) * period` modulo `2^32`. -/
theorem release_step (start period nr : Nat) (j : Int)
    (h : (nr : Int) = ((start : Int) + j * (period : Int)) % 4294967296) :
    (((nr + period) % 4294967296 : Nat) : Int)
      = ((start : Int) + (j + 1) * (period : Int)) % 4294967296 := by
  have hmul : (j + 1) * (period : Int) = j * (period : Int) + (period : Int) := by ring
  rw [hmul]
  generalize j * (period : Int) = x at h ⊢
  push_cast
  omega

/-- Every record a job runner appends has the release
`(start + (job_id + 1) * period_ms) mod 2^32`, `start` being the clock value
`task_entry` reads on entry, and the deadline that goes with it. -/
theorem task_entry_release_closed_form (e : kernel_env) (fuel : Nat) (cfg : task_cfg_t)
    (log : log_state) (hwf : log.wf) :
    ∃ recs, (task_entry e fuel cfg log).log.records = log.records ++ recs ∧
      ∀ r ∈ recs, 0 ≤ r.job_id ∧
        (r.release_ms : Int)
          = ((e.uptime 0 % 4294967296 : Nat) + (r.job_id + 1) * (cfg.period_ms : Int))
              % 4294967296 ∧
        r.deadline_abs_ms = (r.release_ms + cfg.deadline_ms) % 4294967296 := by
  rw [task_entry_eq_loop]
  apply task_loop_records e fuel _
    (fun st => st.cfg = cfg ∧ 0 ≤ st.job ∧
      (st.next_release : Int)
        = ((e.uptime 0 % 4294967296 : Nat) + st.job * (cfg.period_ms : Int)) % 4294967296)
    _ _ fuel _ log ?_ hwf (fun p hp => hp)
  · intro st st1 r hI hj _
    obtain ⟨hcfg, hjob, hnr⟩ := hI
    obtain ⟨⟨_, hjid, hrel, hd, _⟩, ⟨hc, hj1, hnr1⟩, _, _⟩ := task_job_some _ _ _ _ _ hj
    rw [hcfg] at hrel hd
    have hform := release_step _ cfg.period_ms _ _ hnr
    rw [← hrel] at hform
    refine ⟨⟨by rw [hjid]; exact hjob, by rw [hjid]; exact hform, hd⟩, hc.trans hcfg, ?_, ?_⟩
    · show 0 ≤ st1.job + 1
      rw [hj1]; omega
    · show (st1.next_release : Int) = _
      rw [hnr1, hj1]
      exact hform
  · refine ⟨rfl, Int.le_refl 0, ?_⟩
    show ((e.uptime 0 % 4294967296 : Nat) : Int)
      = ((e.uptime 0 % 4294967296 : Nat) + 0 * (cfg.period_ms : Int)) % 4294967296
    omega

/-- C11: two runs of `task_entry` for the same descriptor that read the same
clock value on entry record, for every job, the same `release_ms` and the same
`deadline_abs_ms`, whatever jitter values are drawn and whatever the clock reads
afterwards in either run (and however long either run is followed). -/
theorem release_independent_of_jitter (e1 e2 : kernel_env) (fuel1 fuel2 : Nat)
    (cfg : task_cfg_t) (log1 log2 : log_state) (hwf1 : log1.wf) (hwf2 : log2.wf)
    (hstart : e1.uptime 0 % 4294967296 = e2.uptime 0 % 4294967296) :
    ∃ recs1 recs2,
      (task_entry e1 fuel1 cfg log1).log.records = log1.records ++ recs1 ∧
      (task_entry e2 fuel2 cfg log2).log.records = log2.records ++ recs2 ∧
      ∀ r1 ∈ recs1, ∀ r2 ∈ recs2, r1.job_id = r2.job_id →
        r1.release_ms = r2.release_ms ∧ r1.deadline_abs_ms = r2.deadline_abs_ms := by
  obtain ⟨recs1, h1, hp1⟩ := task_entry_release_closed_form e1 fuel1 cfg log1 hwf1
  obtain ⟨recs2, h2, hp2⟩ := task_entry_release_closed_form e2 fuel2 cfg log2 hwf2
  refine ⟨recs1, recs2, h1, h2, fun r1 hr1 r2 hr2 hjob => ?_⟩
  obtain ⟨_, ha, hda⟩ := hp1 r1 hr1
  obtain ⟨_, hb, hdb⟩ := hp2 r2 hr2
  have hrel : r1.release_ms = r2.release_ms := by
    rw [hstart, hjob] at ha
    have := ha.trans hb.symm
    exact_mod_cast this
  exact ⟨hrel, by rw [hda, hdb, hrel]⟩

/-- The clocks of `env_tick` and `env_frozen` both read 0 first. -/
theorem env_tick_frozen_same_start :
    env_tick.uptime 0 % 4294967296 = env_frozen.uptime 0 % 4294967296 := rfl

set_option maxRecDepth 100000 in
/-- C11 on two runs of the first descriptor of `TASKS` that both start at clock
value 0: one draws jitter 7 under the clock of `env_wake`, the other jitter 0
under a clock that advances by 1000 ms at each reading; both complete their ten
jobs. -/
theorem release_independent_of_jitter_witness :
    (log_init.wf ∧ env_wake.uptime 0 % 4294967296 = env_coarse.uptime 0 % 4294967296 ∧
      (task_entry env_wake 11 cfg_rt0 log_init).finished = true ∧
      (task_entry env_coarse 11 cfg_rt0 log_init).finished = true) ∧
    ∃ recs1 recs2,
      (task_entry env_wake 11 cfg_rt0 log_init).log.records = log_init.records ++ recs1 ∧
      (task_entry env_coarse 11 cfg_rt0 log_init).log.records = log_init.records ++ recs2 ∧
      ∀ r1 ∈ recs1, ∀ r2 ∈ recs2, r1.job_id = r2.job_id →
        r1.release_ms = r2.release_ms ∧ r1.deadline_abs_ms = r2.deadline_abs_ms :=
  ⟨⟨sample_logs_wf.1, by decide, by decide, by decide⟩,
   release_independent_of_jitter env_wake env_coarse 11 11 cfg_rt0 log_init log_init
    sample_logs_wf.1 sample_logs_wf.1 (by decide)⟩

/-- C12, as the code has it: `next_release` starts at the clock value `start`
that `task_entry` reads on entry and is advanced by `period_ms` before each job,
the first included, in `uint32_t` arithmetic.  So the record of job `k` has
`release_ms = (start + (k + 1) * period_ms) mod 2^32`: the first job is released
one period after `start`, and each later job one period (modulo `2^32`) after
the job before it. -/
theorem release_ms_of_job (e : kernel_env) (fuel : Nat) (cfg : task_cfg_t)
    (log : log_state) (hwf : log.wf) :
    ∃ recs, (task_entry e fuel cfg log).log.records = log.records ++ recs ∧
      (∀ r ∈ recs, 0 ≤ r.job_id ∧
        (r.release_ms : Int)
          = ((e.uptime 0 % 4294967296 : Nat) + (r.job_id + 1) * (cfg.period_ms : Int))
              % 4294967296) ∧
      (∀ r ∈ recs, r.job_id = 0 →
        r.release_ms = (e.uptime 0 % 4294967296 + cfg.period_ms) % 4294967296) ∧
      (∀ r ∈ recs, ∀ r' ∈ recs, r'.job_id = r.job_id + 1 →
        r'.release_ms = (r.release_ms + cfg.period_ms) % 4294967296) := by
  obtain ⟨recs, h, hp⟩ := task_entry_release_closed_form e fuel cfg log hwf
  refine ⟨recs, h, fun r hr => ⟨(hp r hr).1, (hp r hr).2.1⟩, fun r hr h0 => ?_,
    fun r hr r' hr' hnext => ?_⟩
  · have := (hp r hr).2.1
    rw [h0] at this
    have h2 : ((r.release_ms : Nat) : Int)
        = (((e.uptime 0 % 4294967296 + cfg.period_ms) % 4294967296 : Nat) : Int) := by
      rw [this]; push_cast; omega
    exact_mod_cast h2
  · have ha := (hp r hr).2.1
    have hb := (hp r' hr').2.1
    rw [hnext] at hb
    have hstep := release_step _ cfg.period_ms _ _ ha
    have := hb.trans hstep.symm
    exact_mod_cast this

/-- C12 with the first descriptor of `TASKS` on the empty log. -/
theorem release_ms_of_job_witness :
    log_init.wf ∧
    ∃ recs, (task_entry env_wake 11 cfg_rt0 log_init).log.records = log_init.records ++ recs ∧
      (∀ r ∈ recs, 0 ≤ r.job_id ∧
        (r.release_ms : Int)
          = ((env_wake.uptime 0 % 4294967296 : Nat)
              + (r.job_id + 1) * (cfg_rt0.period_ms : Int)) % 4294967296) ∧
      (∀ r ∈ recs, r.job_id = 0 →
        r.release_ms = (env_wake.uptime 0 % 4294967296 + cfg_rt0.period_ms) % 4294967296) ∧
      (∀ r ∈ recs, ∀ r' ∈ recs, r'.job_id = r.job_id + 1 →
        r'.release_ms = (r.release_ms + cfg_rt0.period_ms) % 4294967296) :=
  ⟨sample_logs_wf.1, release_ms_of_job env_wake 11 cfg_rt0 log_init sample_logs_wf.1⟩

set_option maxRecDepth 100000 in
/-- C12 as stated fails already for the first job: the runner of the first
descriptor of `TASKS` reads the clock value 0 on entry, and the records of its
jobs 0 and 1 have `release_ms` 50 and 100, one period later than `start + 0 * 50`
and `start + 1 * 50`. -/
theorem first_release_is_one_period_after_start :
    env_wake.uptime 0 % 4294967296 = 0 ∧
    (task_entry env_wake 11 cfg_rt0 log_init).log.records.map
        (fun r => (r.job_id, r.release_ms))
      = [(0, 50), (1, 100), (2, 150), (3, 200), (4, 250), (5, 300), (6, 350), (7, 400),
         (8, 450), (9, 500)] ∧
    ¬ (∀ r ∈ (task_entry env_wake 11 cfg_rt0 log_init).log.records, r.job_id = 0 →
        r.release_ms = env_wake.uptime 0 % 4294967296) := by
  refine ⟨by decide, by decide, by decide⟩

/-! ## Theorems: several runners on one log -/

/-- Replacing one runner changes the total of the `job` counters by the
difference of the two. -/
theorem jobs_total_set (rs : List runner) : ∀ (i : Nat) (r r' : runner),
    rs[i]? = some r →
    jobs_total (rs.set i r') = jobs_total rs - r.locals.job + r'.locals.job := by
  induction rs with
  | nil => intro i r r' h; simp at h
  | cons a rs ih =>
    intro i r r' h
    cases i with
    | zero =>
      simp only [List.getElem?_cons_zero, Option.some.injEq] at h
      subst h
      simp only [jobs_total, List.set_cons_zero, List.map_cons, List.sum_cons]
      omega
    | succ i =>
      simp only [List.getElem?_cons_succ] at h
      have := ih i r r' h
      simp only [jobs_total, List.set_cons_succ, List.map_cons, List.sum_cons] at this ⊢
      omega

/-- The runners `main` creates have completed no pass, and there is one per
descriptor. -/
theorem runners_from_start (envs : Nat → kernel_env) (tasks : List task_cfg_t) :
    ∀ first : Nat, jobs_total (runners_from envs first tasks) = 0 ∧
      (runners_from envs first tasks).length = tasks.length := by
  induction tasks with
  | nil => intro first; exact ⟨rfl, rfl⟩
  | cons c cs ih =>
    intro first
    obtain ⟨h1, h2⟩ := ih (first + 1)
    refine ⟨?_, ?_⟩
    · show jobs_total (_ :: runners_from envs (first + 1) cs) = 0
      simp only [jobs_total, List.map_cons, List.sum_cons] at h1 ⊢
      rw [h1]
      rfl
    · show (_ :: runners_from envs (first + 1) cs).length = (c :: cs).length
      simp only [List.length_cons, h2]

/-- When every runner has left its loop, the total of the `job` counters is ten
per runner. -/
theorem jobs_total_all_done (rs : List runner) (h : ∀ r ∈ rs, r.locals.job = 10) :
    jobs_total rs = 10 * (rs.length : Int) := by
  induction rs with
  | nil => rfl
  | cons a rs ih =>
    have ha := h a (List.mem_cons_self _ _)
    have := ih (fun r hr => h r (List.mem_cons_of_mem _ hr))
    simp only [jobs_total, List.map_cons, List.sum_cons, List.length_cons] at this ⊢
    rw [this, ha]
    push_cast
    omega

/-- One pass of one runner keeps the log well formed, keeps the number of
runners, and keeps `g_log_count` equal to the number of completed passes, capped
at `LOG_MAX`. -/
theorem system_step_count (fuel : Nat) (rs : List runner) (log : log_state) (i : Nat)
    (hwf : log.wf)
    (hlow : jobs_total rs ≤ 512 → log.g_log_count = jobs_total rs)
    (hhigh : 512 ≤ jobs_total rs → log.g_log_count = 512) :
    (system_step fuel rs log i).2.wf ∧
    (system_step fuel rs log i).1.length = rs.length ∧
    (jobs_total (system_step fuel rs log i).1 ≤ 512 →
      (system_step fuel rs log i).2.g_log_count = jobs_total (system_step fuel rs log i).1) ∧
    (512 ≤ jobs_total (system_step fuel rs log i).1 →
      (system_step fuel rs log i).2.g_log_count = 512) := by
  unfold system_step
  cases hri : rs[i]? with
  | none => exact ⟨hwf, rfl, hlow, hhigh⟩
  | some r =>
    dsimp only
    by_cases hlt : r.locals.job < 10
    · rw [if_pos hlt]
      cases hit : task_iter r.env fuel r.locals log with
      | none => exact ⟨hwf, rfl, hlow, hhigh⟩
      | some q =>
        obtain ⟨st2, log2⟩ := q
        dsimp only
        obtain ⟨rec, st1, hj, hst2, hlog2⟩ := task_iter_some _ _ _ _ _ _ hit
        obtain ⟨_, ⟨_, hjob, _⟩, _, _⟩ := task_job_some _ _ _ _ _ hj
        have hjob2 : st2.job = r.locals.job + 1 := by
          rw [hst2]; show st1.job + 1 = _; rw [hjob]
        have htot := jobs_total_set rs i r { r with locals := st2 } hri
        have htot2 : jobs_total (rs.set i { r with locals := st2 }) = jobs_total rs + 1 := by
          rw [htot]; show jobs_total rs - r.locals.job + st2.job = _; rw [hjob2]; omega
        have hcount : log2.g_log_count
            = if log.g_log_count < 512 then log.g_log_count + 1 else log.g_log_count := by
          rw [hlog2]; unfold log_append LOG_MAX; split <;> rfl
        have hwf2 : log2.wf := by rw [hlog2]; exact log_append_wf log rec hwf
        obtain ⟨_, h0, h512⟩ := hwf
        refine ⟨hwf2, by simp, ?_, ?_⟩
        · intro h
          rw [htot2] at h ⊢
          rw [hcount, if_pos (by have := hlow (by omega); omega), hlow (by omega)]
        · intro h
          rw [htot2] at h
          rw [hcount]
          split
          · have := hlow (by omega); omega
          · omega
    · rw [if_neg hlt]
      exact ⟨hwf, rfl, hlow, hhigh⟩

/-- Any schedule keeps the log well formed, keeps the number of runners, and
keeps `g_log_count` equal to the number of completed passes, capped at
`LOG_MAX`. -/
theorem system_run_count (fuel : Nat) (sched : List Nat) :
    ∀ (rs : List runner) (log : log_state), log.wf →
      (jobs_total rs ≤ 512 → log.g_log_count = jobs_total rs) →
      (512 ≤ jobs_total rs → log.g_log_count = 512) →
      (system_run fuel rs log sched).2.wf ∧
      (system_run fuel rs log sched).1.length = rs.length ∧
      (jobs_total (system_run fuel rs log sched).1 ≤ 512 →
        (system_run fuel rs log sched).2.g_log_count
          = jobs_total (system_run fuel rs log sched).1) ∧
      (512 ≤ jobs_total (system_run fuel rs log sched).1 →
        (system_run fuel rs log sched).2.g_log_count = 512) := by
  induction sched with
  | nil => intro rs log hwf h1 h2; exact ⟨hwf, rfl, h1, h2⟩
  | cons i is ih =>
    intro rs log hwf h1 h2
    obtain ⟨hwf', hlen', h1', h2'⟩ := system_step_count fuel rs log i hwf h1 h2
    obtain ⟨a, b, c, d⟩ := ih (system_step fuel rs log i).1 (system_step fuel rs log i).2
      hwf' h1' h2'
    exact ⟨a, b.trans hlen', c, d⟩

/-- C14: for every table of descriptors and every order in which their runners
make their passes, starting on the empty log, once every runner has completed
its `K = 10` jobs the log holds exactly `min(10 * n, 512)` records, `n` being the
number of descriptors; for a table of 14 descriptors, as `TASKS` is, that is 140
records, one for each of the 140 jobs. -/
theorem log_count_when_all_done (fuel : Nat) (envs : Nat → kernel_env)
    (tasks : List task_cfg_t) (sched : List Nat)
    (hdone : ∀ r ∈ (system_run fuel (runners_from envs 0 tasks) log_init sched).1,
      r.locals.job = 10) :
    (system_run fuel (runners_from envs 0 tasks) log_init sched).2.g_log_count
      = min (10 * (tasks.length : Int)) 512 ∧
    (system_run fuel (runners_from envs 0 tasks) log_init sched).2.records.length
      = min (10 * tasks.length) 512 ∧
    (tasks.length = 14 →
      (system_run fuel (runners_from envs 0 tasks) log_init sched).2.records.length = 140) := by
  obtain ⟨h0, hlen0⟩ := runners_from_start envs tasks 0
  obtain ⟨hwf, hlen, hlow, hhigh⟩ := system_run_count fuel sched
    (runners_from envs 0 tasks) log_init sample_logs_wf.1
    (fun _ => by rw [h0]; rfl) (fun h => by rw [h0] at h; omega)
  have htot := jobs_total_all_done _ hdone
  rw [hlen, hlen0] at htot
  rw [htot] at hlow hhigh
  have hcount : (system_run fuel (runners_from envs 0 tasks) log_init sched).2.g_log_count
      = min (10 * (tasks.length : Int)) 512 := by
    rcases Int.le_total (10 * (tasks.length : Int)) 512 with h | h
    · rw [hlow h, min_eq_left h]
    · rw [hhigh h, min_eq_right h]
  have hrec := log_records_length _ hwf
  have hreclen : (system_run fuel (runners_from envs 0 tasks) log_init sched).2.records.length
      = min (10 * tasks.length) 512 := by
    have : ((system_run fuel (runners_from envs 0 tasks) log_init sched).2.records.length : Int)
        = ((min (10 * tasks.length) 512 : Nat) : Int) := by
      rw [hrec, hcount]; push_cast; rfl
    exact_mod_cast this
  refine ⟨hcount, hreclen, fun h14 => ?_⟩
  rw [hreclen, h14]
  rfl

set_option maxRecDepth 1000000 in
/-- C14 on the table `TASKS`, its 14 runners taking turns ten times over under a
clock that advances by 1000 ms at each reading: every runner completes its ten
jobs and the log holds 140 records. -/
theorem log_count_when_all_done_witness :
    (∀ r ∈ (system_run 1 (runners_from (fun _ => env_coarse) 0 TASKS) log_init
        (round_robin 14 10)).1, r.locals.job = 10) ∧
    (system_run 1 (runners_from (fun _ => env_coarse) 0 TASKS) log_init
        (round_robin 14 10)).2.records.length = 140 :=
  ⟨by decide,
   (log_count_when_all_done 1 (fun _ => env_coarse) TASKS (round_robin 14 10)
    (by decide)).2.2 rfl⟩

set_option maxRecDepth 1000000 in
/-- C13 on the code: `TASKS` has two descriptors with `id = 6` (and two with
`id = 7`).  When its 14 runners take turns ten times over, every runner
completes its ten jobs, no record is dropped, and the records carrying
`task_id = 6` have, in append order, the `job_id` values 0, 0, 1, 1, ..., 9, 9:
twenty records, each value twice, not strictly increasing. -/
theorem task_id_six_has_two_runners :
    (TASKS.filter (fun c => c.id = 6)).length = 2 ∧
    (∀ r ∈ (system_run 1 (runners_from (fun _ => env_coarse) 0 TASKS) log_init
        (round_robin 14 10)).1, r.locals.job = 10) ∧
    (system_run 1 (runners_from (fun _ => env_coarse) 0 TASKS) log_init
        (round_robin 14 10)).2.g_log_count = 140 ∧
    ((system_run 1 (runners_from (fun _ => env_coarse) 0 TASKS) log_init
        (round_robin 14 10)).2.records.filter (fun r => r.task_id = 6)).map job_log_t.job_id
      = [0, 0, 1, 1, 2, 2, 3, 3, 4, 4, 5, 5, 6, 6, 7, 7, 8, 8, 9, 9] ∧
    ¬ (((system_run 1 (runners_from (fun _ => env_coarse) 0 TASKS) log_init
        (round_robin 14 10)).2.records.filter (fun r => r.task_id = 6)).map job_log_t.job_id
      = [0, 1, 2, 3, 4, 5, 6, 7, 8, 9]) := by
  refine ⟨by decide, by decide, by decide, by decide, by decide⟩

/-- The creation loop of `main` creates one thread per descriptor, in table
order, running `task_entry` on that descriptor. -/
theorem main_create_threads_cfgs (tasks : List task_cfg_t) :
    (main_create_threads tasks).map created_thread.cfg = tasks ∧
    ∀ t ∈ main_create_threads tasks, t.prio = if t.cfg.critical ≠ 0 then 0 else 4 := by
  induction tasks with
  | nil => exact ⟨rfl, fun t ht => absurd ht (List.not_mem_nil t)⟩
  | cons c cs ih =>
    refine ⟨?_, fun t ht => ?_⟩
    · show c :: (main_create_threads cs).map created_thread.cfg = c :: cs
      rw [ih.1]
    · rcases List.mem_cons.mp ht with h | h
      · rw [h]
      · exact ih.2 t h

/-- C16, as the code has it: `main` checks no descriptor.  For every table that
fits the `MAX_TASKS` thread objects, valid or not, it creates one job runner for
each descriptor, in table order, with priority 0 when `critical` is non-zero and
4 otherwise; a descriptor with `period_ms = 0` gets its runner like any other. -/
theorem main_creates_runner_for_every_descriptor (tasks : List task_cfg_t)
    (_hfit : tasks.length ≤ MAX_TASKS) :
    (main_create_threads tasks).length = tasks.length ∧
    (main_create_threads tasks).map created_thread.cfg = tasks ∧
    (∀ t ∈ main_create_threads tasks, t.prio = if t.cfg.critical ≠ 0 then 0 else 4) ∧
    (∀ c ∈ tasks, c.period_ms = 0 → ∃ t ∈ main_create_threads tasks, t.cfg = c) := by
  obtain ⟨h1, h2⟩ := main_create_threads_cfgs tasks
  refine ⟨?_, h1, h2, fun c hc _ => ?_⟩
  · have := congrArg List.length h1
    rwa [List.length_map] at this
  · rw [← h1] at hc
    obtain ⟨t, ht, htc⟩ := List.mem_map.mp hc
    exact ⟨t, ht, htc⟩

/-- C16 on the table `TASKS`, which fits: 14 runners are created. -/
theorem main_creates_runner_for_every_descriptor_witness :
    TASKS.length ≤ MAX_TASKS ∧ (main_create_threads TASKS).length = 14 :=
  ⟨by decide, (main_creates_runner_for_every_descriptor TASKS (by decide)).1⟩

/-- C16 as stated fails: for the table made of the first descriptor of `TASKS`
and a descriptor with `period_ms = 0`, `main` rejects nothing and creates both
runners, the one for the invalid descriptor included. -/
theorem main_accepts_zero_period :
    cfg_period_zero.period_ms = 0 ∧
    main_create_threads [cfg_rt0, cfg_period_zero]
      = [{ cfg := cfg_rt0, prio := 0 }, { cfg := cfg_period_zero, prio := 0 }] ∧
    ¬ (main_create_threads [cfg_rt0, cfg_period_zero] = []) := by
  refine ⟨rfl, by decide, by decide⟩

end SadScheduling
